import Mathlib

set_option maxHeartbeats 1000000

/-!
Verification development for the MonkeyType runtime type tracer.

The development shallowly embeds the parts of the code base that the
checked properties are about:

* `monkeytype/typing.py`: the value typer `get_type`, `shrink_types`, and
  the type rewriters (`RemoveEmptyContainers`, `RewriteLargeUnion`, ...);
* `monkeytype/tracing.py`: `CallTrace`, `CallTracer.handle_call`,
  `CallTracer.handle_return`, `CallTracer.__call__` and `trace_calls`;
* `monkeytype/stubs.py`: `shrink_traced_types`;
* `monkeytype/encoding.py`: `type_to_dict` / `type_from_dict` and the
  json layer;
* `monkeytype/db/base.py`: `CallTraceStoreLogger`.

Python type expressions are modelled by the inductive `Ty`; Python runtime
values by `PyVal`.  A `Union[...]` object carries the tuple of its
alternatives in observed order, exactly as a CPython `typing.Union` object
does; Python's `==` on types (which compares union alternatives as a set)
is modelled by the relation `PyEq`.
-/

namespace MonkeyType

/-- The closed universe of concrete Python classes used in the embedding:
the builtins that `get_type` can produce, the hidden builtins of
`encoding._HIDDEN_BUILTIN_TYPES`, and the diamond hierarchy
`A <- B <- {D, E}`, `A <- C <- {F, G}` from the rewriter tests. -/
inductive ClassName where
  | obj
  | intC
  | boolC
  | strC
  | floatC
  | bytesC
  | noneTypeC
  | notImplementedTypeC
  | mappingproxyC
  | A
  | B
  | C
  | D
  | E
  | F
  | G
  deriving DecidableEq

/-- Python method resolution order of each class in the universe
(`inspect.getmro`). -/
def mro : ClassName → List ClassName
  | .obj => [.obj]
  | .intC => [.intC, .obj]
  | .boolC => [.boolC, .intC, .obj]
  | .strC => [.strC, .obj]
  | .floatC => [.floatC, .obj]
  | .bytesC => [.bytesC, .obj]
  | .noneTypeC => [.noneTypeC, .obj]
  | .notImplementedTypeC => [.notImplementedTypeC, .obj]
  | .mappingproxyC => [.mappingproxyC, .obj]
  | .A => [.A, .obj]
  | .B => [.B, .A, .obj]
  | .C => [.C, .A, .obj]
  | .D => [.D, .B, .A, .obj]
  | .E => [.E, .B, .A, .obj]
  | .F => [.F, .C, .A, .obj]
  | .G => [.G, .C, .A, .obj]

/-- Python `issubclass` restricted to the class universe: membership in
the method resolution order. -/
def isSubclass (c d : ClassName) : Bool := d ∈ mro c

/-- Python type expressions, as produced and consumed by the code under
verification.  `union ts` models a `typing.Union` object whose `__args__`
tuple is `ts` (observed order); `tuple ts` models a fixed-arity
`Tuple[T1, ..., Tn]` (with `tuple []` standing for `Tuple[()]`),
`tupleAny` the bare unparametrized `typing.Tuple`, and `tupleVar t` the
variadic `Tuple[t, ...]`.  `shaped name fields` models a `TypedDict`
record-shape type: an ordered list of fields `(key, type, required)`. -/
inductive Ty where
  | any
  | class_ (c : ClassName)
  | typeOf (t : Ty)
  | callable
  | list (t : Ty)
  | set (t : Ty)
  | dict (k v : Ty)
  | tuple (ts : List Ty)
  | tupleAny
  | tupleVar (t : Ty)
  | iterator (t : Ty)
  | generator (y s r : Ty)
  | union (ts : List Ty)
  | shaped (name : String) (fields : List (String × Ty × Bool))

mutual

/-- Structural (syntactic) equality test on `Ty`. -/
def tyBEq : Ty → Ty → Bool
  | .any, .any => true
  | .class_ c, .class_ d => c = d
  | .typeOf a, .typeOf b => tyBEq a b
  | .callable, .callable => true
  | .list a, .list b => tyBEq a b
  | .set a, .set b => tyBEq a b
  | .dict k v, .dict k' v' => tyBEq k k' && tyBEq v v'
  | .tuple ts, .tuple us => tyListBEq ts us
  | .tupleAny, .tupleAny => true
  | .tupleVar a, .tupleVar b => tyBEq a b
  | .iterator a, .iterator b => tyBEq a b
  | .generator y s r, .generator y' s' r' => tyBEq y y' && (tyBEq s s' && tyBEq r r')
  | .union ts, .union us => tyListBEq ts us
  | .shaped n fs, .shaped m gs => n = m && fieldListBEq fs gs
  | _, _ => false

/-- Elementwise structural equality of type lists. -/
def tyListBEq : List Ty → List Ty → Bool
  | [], [] => true
  | t :: ts, u :: us => tyBEq t u && tyListBEq ts us
  | _, _ => false

/-- Elementwise structural equality of record-shape field lists. -/
def fieldListBEq : List (String × Ty × Bool) → List (String × Ty × Bool) → Bool
  | [], [] => true
  | (k, t, r) :: fs, (k', t', r') :: gs =>
      k = k' && (tyBEq t t' && ((r = r' : Bool) && fieldListBEq fs gs))
  | _, _ => false

end

theorem tyBEq_iff_eq : ∀ a b : Ty, tyBEq a b = true ↔ a = b := by
  have main : ∀ n : Nat, ∀ a b : Ty, sizeOf a ≤ n → (tyBEq a b = true ↔ a = b) := by
    intro n
    induction n with
    | zero =>
      intro a b h
      exfalso
      cases a <;> simp_all
    | succ n ih =>
      have listStep : ∀ ts us : List Ty, sizeOf ts ≤ n + 1 →
          (tyListBEq ts us = true ↔ ts = us) := by
        intro ts
        induction ts with
        | nil => intro us _; cases us <;> simp [tyListBEq]
        | cons t ts ihts =>
          intro us hsz
          cases us with
          | nil => simp [tyListBEq]
          | cons u us =>
            have ht : sizeOf t ≤ n := by
              have := List.sizeOf_lt_of_mem (List.mem_cons_self t ts)
              simp at hsz ⊢
              omega
            have hts : sizeOf ts ≤ n + 1 := by
              simp at hsz ⊢
              omega
            simp [tyListBEq, ih t u ht, ihts us hts]
      have fieldStep : ∀ fs gs : List (String × Ty × Bool), sizeOf fs ≤ n + 1 →
          (fieldListBEq fs gs = true ↔ fs = gs) := by
        intro fs
        induction fs with
        | nil => intro gs _; cases gs <;> simp [fieldListBEq]
        | cons f fs ihfs =>
          intro gs hsz
          cases gs with
          | nil => simp [fieldListBEq]
          | cons g gs =>
            obtain ⟨k, t, r⟩ := f
            obtain ⟨k', t', r'⟩ := g
            have ht : sizeOf t ≤ n := by
              simp at hsz ⊢
              omega
            have hfs : sizeOf fs ≤ n + 1 := by
              simp at hsz ⊢
              omega
            simp [fieldListBEq, ih t t' ht, ihfs gs hfs]
            tauto
      intro a b h
      cases a <;> cases b <;> simp_all [tyBEq]
      all_goals
        first
        | rfl
        | (constructor <;> intro hh <;> simp_all)
        | (rw [ih _ _ (by omega), ih _ _ (by omega), ih _ _ (by omega)])
        | (rw [ih _ _ (by omega), ih _ _ (by omega)])
        | (rw [ih _ _ (by omega)])
        | (rw [listStep _ _ (by omega)])
        | (intro hnm; rw [fieldStep _ _ (by omega)])
  intro a b
  exact main (sizeOf a) a b (Nat.le_refl _)

instance : DecidableEq Ty := fun a b =>
  decidable_of_iff (tyBEq a b = true) (tyBEq_iff_eq a b)

/-- Removing duplicates keeping the first occurrence of each element,
as CPython's `dict.fromkeys`-style deduplication does (`List.dedup`
keeps the last occurrence, which would be unfaithful). -/
def dedupFirstAux {α : Type} [DecidableEq α] (seen : List α) : List α → List α
  | [] => []
  | x :: xs => if x ∈ seen then dedupFirstAux seen xs else x :: dedupFirstAux (x :: seen) xs

/-- First-occurrence deduplication. -/
def dedupFirst {α : Type} [DecidableEq α] (l : List α) : List α :=
  dedupFirstAux [] l

theorem mem_dedupFirstAux {α : Type} [DecidableEq α] (a : α) :
    ∀ (l seen : List α), a ∈ dedupFirstAux seen l ↔ a ∈ l ∧ a ∉ seen := by
  intro l
  induction l with
  | nil => intro seen; simp [dedupFirstAux]
  | cons x xs ih =>
    intro seen
    by_cases hx : x ∈ seen
    · simp only [dedupFirstAux, if_pos hx, ih]
      constructor
      · exact fun ⟨h1, h2⟩ => ⟨List.mem_cons_of_mem _ h1, h2⟩
      · rintro ⟨h1, h2⟩
        rcases List.mem_cons.mp h1 with rfl | h1
        · exact absurd hx h2
        · exact ⟨h1, h2⟩
    · simp only [dedupFirstAux, if_neg hx, List.mem_cons, ih]
      constructor
      · rintro (rfl | ⟨h1, h2⟩)
        · exact ⟨Or.inl rfl, hx⟩
        · exact ⟨Or.inr h1, fun hs => h2 (Or.inr hs)⟩
      · rintro ⟨rfl | h1, h2⟩
        · exact Or.inl rfl
        · by_cases hax : a = x
          · exact Or.inl hax
          · exact Or.inr ⟨h1, by simp [hax, h2]⟩

theorem mem_dedupFirst {α : Type} [DecidableEq α] {a : α} {l : List α} :
    a ∈ dedupFirst l ↔ a ∈ l := by
  simp [dedupFirst, mem_dedupFirstAux]

theorem nodup_dedupFirstAux {α : Type} [DecidableEq α] :
    ∀ (l seen : List α), (dedupFirstAux seen l).Nodup := by
  intro l
  induction l with
  | nil => intro seen; simp [dedupFirstAux]
  | cons x xs ih =>
    intro seen
    by_cases hx : x ∈ seen
    · simpa [dedupFirstAux, if_pos hx] using ih seen
    · simp only [dedupFirstAux, if_neg hx, List.nodup_cons]
      refine ⟨fun hmem => ?_, ih (x :: seen)⟩
      exact ((mem_dedupFirstAux x xs (x :: seen)).mp hmem).2 (List.mem_cons_self x seen)

theorem nodup_dedupFirst {α : Type} [DecidableEq α] (l : List α) :
    (dedupFirst l).Nodup :=
  nodup_dedupFirstAux l []

theorem dedupFirstAux_eq_self {α : Type} [DecidableEq α] :
    ∀ (l seen : List α), l.Nodup → (∀ a ∈ l, a ∉ seen) → dedupFirstAux seen l = l := by
  intro l
  induction l with
  | nil => intro seen _ _; rfl
  | cons x xs ih =>
    intro seen hnd hout
    have hx : x ∉ seen := hout x (List.mem_cons_self x xs)
    rw [dedupFirstAux, if_neg hx]
    congr 1
    apply ih (x :: seen) (List.nodup_cons.mp hnd).2
    intro a ha
    simp only [List.mem_cons]
    rintro (rfl | hseen)
    · exact (List.nodup_cons.mp hnd).1 ha
    · exact hout a (List.mem_cons_of_mem _ ha) hseen

theorem dedupFirst_eq_self {α : Type} [DecidableEq α] {l : List α} (h : l.Nodup) :
    dedupFirst l = l :=
  dedupFirstAux_eq_self l [] h (by simp)

theorem dedupFirst_perm {α : Type} [DecidableEq α] {l₁ l₂ : List α}
    (h : l₁.Perm l₂) : (dedupFirst l₁).Perm (dedupFirst l₂) := by
  rw [List.perm_iff_count]
  intro a
  by_cases ha : a ∈ l₁
  · rw [List.count_eq_one_of_mem (nodup_dedupFirst l₁) (mem_dedupFirst.mpr ha),
      List.count_eq_one_of_mem (nodup_dedupFirst l₂)
        (mem_dedupFirst.mpr (h.mem_iff.mp ha))]
  · rw [List.count_eq_zero_of_not_mem (fun hm => ha (mem_dedupFirst.mp hm)),
      List.count_eq_zero_of_not_mem
        (fun hm => ha (h.mem_iff.mpr (mem_dedupFirst.mp hm)))]

mutual

/-- Python `==` on type expressions.  CPython compares `typing.Union`
objects by the frozenset of their alternatives (order-irrelevant),
recursively; all other type expressions compare structurally, with the
arguments compared by `==` again. -/
inductive PyEq : Ty → Ty → Prop where
  | any : PyEq .any .any
  | class_ (c : ClassName) : PyEq (.class_ c) (.class_ c)
  | typeOf {a b : Ty} : PyEq a b → PyEq (.typeOf a) (.typeOf b)
  | callable : PyEq .callable .callable
  | list {a b : Ty} : PyEq a b → PyEq (.list a) (.list b)
  | set {a b : Ty} : PyEq a b → PyEq (.set a) (.set b)
  | dict {k v k' v' : Ty} : PyEq k k' → PyEq v v' → PyEq (.dict k v) (.dict k' v')
  | tuple {ts us : List Ty} : PyEqList ts us → PyEq (.tuple ts) (.tuple us)
  | tupleAny : PyEq .tupleAny .tupleAny
  | tupleVar {a b : Ty} : PyEq a b → PyEq (.tupleVar a) (.tupleVar b)
  | iterator {a b : Ty} : PyEq a b → PyEq (.iterator a) (.iterator b)
  | generator {y s r y' s' r' : Ty} :
      PyEq y y' → PyEq s s' → PyEq r r' →
      PyEq (.generator y s r) (.generator y' s' r')
  | union {ts us : List Ty} :
      PyEqSub ts us → PyEqSub us ts → PyEq (.union ts) (.union us)
  | shaped {n : String} {fs gs : List (String × Ty × Bool)} :
      PyEqFields fs gs → PyEq (.shaped n fs) (.shaped n gs)

/-- Elementwise `PyEq` of two type lists of equal length. -/
inductive PyEqList : List Ty → List Ty → Prop where
  | nil : PyEqList [] []
  | cons {t u : Ty} {ts us : List Ty} :
      PyEq t u → PyEqList ts us → PyEqList (t :: ts) (u :: us)

/-- Some member of the list is Python-`==` to the given type. -/
inductive PyEqMem : Ty → List Ty → Prop where
  | head {t u : Ty} {us : List Ty} : PyEq t u → PyEqMem t (u :: us)
  | tail {t u : Ty} {us : List Ty} : PyEqMem t us → PyEqMem t (u :: us)

/-- Every member of the first list is Python-`==` to some member of the
second list (set inclusion up to Python `==`). -/
inductive PyEqSub : List Ty → List Ty → Prop where
  | nil {us : List Ty} : PyEqSub [] us
  | cons {t : Ty} {ts us : List Ty} :
      PyEqMem t us → PyEqSub ts us → PyEqSub (t :: ts) us

/-- Elementwise `PyEq` of record-shape field lists (same keys, same
required flags, Python-equal field types). -/
inductive PyEqFields :
    List (String × Ty × Bool) → List (String × Ty × Bool) → Prop where
  | nil : PyEqFields [] []
  | cons {k : String} {t u : Ty} {r : Bool} {fs gs : List (String × Ty × Bool)} :
      PyEq t u → PyEqFields fs gs → PyEqFields ((k, t, r) :: fs) ((k, u, r) :: gs)

end

/-- Weakening: a `PyEq`-inclusion survives extending the right list. -/
theorem pyEqSub_ext : ∀ {ts us : List Ty} (u : Ty), PyEqSub ts us → PyEqSub ts (u :: us)
  | [], _, _, _ => .nil
  | _ :: _, _, u, .cons hm hs => .cons (.tail hm) (pyEqSub_ext u hs)

mutual

/-- Python `==` is reflexive on type expressions. -/
theorem pyEq_refl : ∀ t : Ty, PyEq t t
  | .any => .any
  | .class_ c => .class_ c
  | .typeOf a => .typeOf (pyEq_refl a)
  | .callable => .callable
  | .list a => .list (pyEq_refl a)
  | .set a => .set (pyEq_refl a)
  | .dict k v => .dict (pyEq_refl k) (pyEq_refl v)
  | .tuple ts => .tuple (pyEqList_refl ts)
  | .tupleAny => .tupleAny
  | .tupleVar a => .tupleVar (pyEq_refl a)
  | .iterator a => .iterator (pyEq_refl a)
  | .generator y s r => .generator (pyEq_refl y) (pyEq_refl s) (pyEq_refl r)
  | .union ts => .union (pyEqSub_refl ts) (pyEqSub_refl ts)
  | .shaped _ fs => .shaped (pyEqFields_refl fs)

/-- Reflexivity of the elementwise list relation. -/
theorem pyEqList_refl : ∀ ts : List Ty, PyEqList ts ts
  | [] => .nil
  | t :: ts => .cons (pyEq_refl t) (pyEqList_refl ts)

/-- Reflexivity of `PyEq`-inclusion. -/
theorem pyEqSub_refl : ∀ ts : List Ty, PyEqSub ts ts
  | [] => .nil
  | t :: ts => .cons (.head (pyEq_refl t)) (pyEqSub_ext t (pyEqSub_refl ts))

/-- Reflexivity of the field-list relation. -/
theorem pyEqFields_refl : ∀ fs : List (String × Ty × Bool), PyEqFields fs fs
  | [] => .nil
  | (_, t, _) :: fs => .cons (pyEq_refl t) (pyEqFields_refl fs)

end

/-- A structural member gives a `PyEq` member. -/
theorem pyEqMem_of_mem {t : Ty} {us : List Ty} (h : t ∈ us) : PyEqMem t us := by
  induction us with
  | nil => cases h
  | cons u us ih =>
    rcases List.mem_cons.mp h with h' | h'
    · exact h' ▸ .head (pyEq_refl t)
    · exact .tail (ih h')

/-- Pointwise `PyEq` membership gives `PyEq`-inclusion. -/
theorem pyEqSub_of_forall_mem {ts us : List Ty}
    (h : ∀ t ∈ ts, PyEqMem t us) : PyEqSub ts us := by
  induction ts with
  | nil => exact .nil
  | cons t ts ih =>
    exact .cons (h t (List.mem_cons_self t ts))
      (ih fun t' ht' => h t' (List.mem_cons_of_mem t ht'))

/-!
The following definitions embed `monkeytype/typing.py`.
-/

/-- CPython `typing.Union.__getitem__` first flattens nested unions one
level (`_remove_dups_flatten`): a member that is itself a union
contributes its alternatives. -/
def flattenUnions (ts : List Ty) : List Ty :=
  ts.flatMap fun t =>
    match t with
    | .union us => us
    | t => [t]

/-- Model of the Python expression `Union[tuple(types)]` for a non-empty
tuple of types: flatten nested unions, remove duplicates keeping the
first occurrence, and collapse a singleton to its only member. -/
def pyUnion (ts : List Ty) : Ty :=
  match dedupFirst (flattenUnions ts) with
  | [t] => t
  | ds => .union ds

/-- Embedding of `monkeytype/typing.py` `shrink_types` (the in-tree,
one-argument version): the empty collection shrinks to `Any`, otherwise
the result is `Union[types]`. -/
def shrink_types (types : List Ty) : Ty :=
  match types with
  | [] => .any
  | ts => pyUnion ts

theorem shrink_types_nil : shrink_types [] = .any := rfl

theorem shrink_types_of_ne_nil {ts : List Ty} (h : ts ≠ []) :
    shrink_types ts = pyUnion ts := by
  cases ts with
  | nil => exact absurd rfl h
  | cons t ts => rfl

/-- Permutation-related unions are Python-equal. -/
theorem pyUnion_perm {l₁ l₂ : List Ty} (h : l₁.Perm l₂) :
    PyEq (pyUnion l₁) (pyUnion l₂) := by
  have hded : (dedupFirst (flattenUnions l₁)).Perm (dedupFirst (flattenUnions l₂)) :=
    dedupFirst_perm (h.flatMap_right _)
  unfold pyUnion
  cases hd₁ : dedupFirst (flattenUnions l₁) with
  | nil =>
    have : dedupFirst (flattenUnions l₂) = [] := by
      rw [hd₁] at hded
      exact hded.symm.eq_nil
    rw [this]
    exact .union .nil .nil
  | cons a r₁ =>
    cases r₁ with
    | nil =>
      have : dedupFirst (flattenUnions l₂) = [a] := by
        rw [hd₁] at hded
        exact (List.perm_singleton.mp hded.symm).symm ▸ rfl
      rw [this]
      exact pyEq_refl a
    | cons b r₂ =>
      rw [hd₁] at hded
      cases hd₂ : dedupFirst (flattenUnions l₂) with
      | nil => rw [hd₂] at hded; exact absurd hded.length_eq (by simp)
      | cons a' r₁' =>
        rw [hd₂] at hded
        cases r₁' with
        | nil => exact absurd hded.length_eq (by simp)
        | cons b' r₂' =>
          exact .union
            (pyEqSub_of_forall_mem fun t ht =>
              pyEqMem_of_mem (hded.mem_iff.mp ht))
            (pyEqSub_of_forall_mem fun t ht =>
              pyEqMem_of_mem (hded.mem_iff.mpr ht))

/-- C8: the result type of `shrink_types` is invariant, up to Python
type equality, under reordering of the input collection of observed
types. -/
theorem shrink_types_perm_invariant (l₁ l₂ : List Ty) (h : l₁.Perm l₂) :
    PyEq (shrink_types l₁) (shrink_types l₂) := by
  cases l₁ with
  | nil =>
    have : l₂ = [] := h.symm.eq_nil
    subst this
    exact .any
  | cons t ts =>
    cases l₂ with
    | nil => exact absurd h.length_eq (by simp)
    | cons u us =>
      rw [shrink_types_of_ne_nil (by simp), shrink_types_of_ne_nil (by simp)]
      exact pyUnion_perm h

/-- Witness for C8 at a concrete reordered input. -/
theorem shrink_types_perm_invariant_witness :
    PyEq (shrink_types [.class_ .intC, .class_ .strC])
      (shrink_types [.class_ .strC, .class_ .intC]) :=
  shrink_types_perm_invariant _ _ (List.Perm.swap _ _ _)

/-- Python runtime values, as far as the value typer inspects them.
`classV` is a class object, `funcV` a function / lambda / method /
builtin callable, `genV` a live generator object, and `instV c i` any
other instance of class `c` (with an identity `i`). -/
inductive PyVal where
  | none
  | bool (b : Bool)
  | int (n : Int)
  | str (s : String)
  | classV (c : ClassName)
  | funcV (id : Nat)
  | genV (id : Nat)
  | listV (xs : List PyVal)
  | setV (xs : List PyVal)
  | dictV (entries : List (PyVal × PyVal))
  | tupleV (xs : List PyVal)
  | instV (c : ClassName) (id : Nat)

mutual

/-- Structural equality test on `PyVal` (Python `==` on the ground
values the embedding manipulates). -/
def pvalBEq : PyVal → PyVal → Bool
  | .none, .none => true
  | .bool a, .bool b => a = b
  | .int a, .int b => a = b
  | .str a, .str b => a = b
  | .classV c, .classV d => c = d
  | .funcV i, .funcV j => i = j
  | .genV i, .genV j => i = j
  | .listV xs, .listV ys => pvalListBEq xs ys
  | .setV xs, .setV ys => pvalListBEq xs ys
  | .dictV es, .dictV fs => pvalPairListBEq es fs
  | .tupleV xs, .tupleV ys => pvalListBEq xs ys
  | .instV c i, .instV d j => c = d && i = j
  | _, _ => false

/-- Elementwise structural equality of value lists. -/
def pvalListBEq : List PyVal → List PyVal → Bool
  | [], [] => true
  | x :: xs, y :: ys => pvalBEq x y && pvalListBEq xs ys
  | _, _ => false

/-- Elementwise structural equality of key-value entry lists. -/
def pvalPairListBEq : List (PyVal × PyVal) → List (PyVal × PyVal) → Bool
  | [], [] => true
  | (k, v) :: es, (k', v') :: fs => pvalBEq k k' && (pvalBEq v v' && pvalPairListBEq es fs)
  | _, _ => false

end

/-- True when the value is structurally equal to a member of the list
(Python `in`). -/
def seenKey (k : PyVal) : List PyVal → Bool
  | [] => false
  | k' :: ks => pvalBEq k k' || seenKey k ks

/-- The entry list of a `dictV` models `dict.items()`, whose keys are
pairwise distinct; `keysDistinct` is that well-formedness condition. -/
def keysDistinct : List (PyVal × PyVal) → Bool
  | [] => true
  | (k, _) :: es => !seenKey k (es.map Prod.fst) && keysDistinct es

mutual

/-- Embedding of `monkeytype/typing.py` `get_type` (the in-tree,
one-argument version): the static type used in a type hint for a value.
Cases in the order of the source: a class object becomes `Type[cls]`, a
callable becomes `Callable`, a generator object becomes
`Iterator[Any]`; then by runtime class: lists and sets shrink their
element types, dicts shrink keys and values, the empty tuple is typed as
bare `Tuple` and other tuples per position; any other value is typed as
its runtime class. -/
def get_type : PyVal → Ty
  | .classV c => .typeOf (.class_ c)
  | .funcV _ => .callable
  | .genV _ => .iterator .any
  | .listV xs => .list (shrink_types (getTypeList xs))
  | .setV xs => .set (shrink_types (getTypeList xs))
  | .dictV es =>
      .dict (shrink_types (getTypeKeys es)) (shrink_types (getTypeVals es))
  | .tupleV [] => .tupleAny
  | .tupleV (x :: xs) => .tuple (getTypeList (x :: xs))
  | .none => .class_ .noneTypeC
  | .bool _ => .class_ .boolC
  | .int _ => .class_ .intC
  | .str _ => .class_ .strC
  | .instV c _ => .class_ c

/-- Types of the elements of a list of values. -/
def getTypeList : List PyVal → List Ty
  | [] => []
  | x :: xs => get_type x :: getTypeList xs

/-- Types of the keys of a dict's entries. -/
def getTypeKeys : List (PyVal × PyVal) → List Ty
  | [] => []
  | (k, _) :: es => get_type k :: getTypeKeys es

/-- Types of the values of a dict's entries. -/
def getTypeVals : List (PyVal × PyVal) → List Ty
  | [] => []
  | (_, v) :: es => get_type v :: getTypeVals es

end

/-!
The following definitions embed `monkeytype/tracing.py`.
-/

/-- Identity of a resolved callable: defining module and qualified name. -/
structure FuncId where
  module : String
  qualname : String
  deriving DecidableEq

/-- Embedding of `tracing.CallTrace`: the types observed during a single
invocation.  `return_type` is `none` while the call is in flight and
stays `none` when the function exits because of an unhandled exception;
it is the null type `class_ noneTypeC` when the function returns the
value `None`.  `yield_type` is `none` when the function never yields. -/
structure CallTrace where
  func : FuncId
  arg_types : List (String × Ty)
  return_type : Option Ty
  yield_type : Option Ty
  deriving DecidableEq

/-- Embedding of `CallTrace.add_yield_type`: the first yield sets the
yield type, later yields union into it. -/
def CallTrace.add_yield_type (tr : CallTrace) (typ : Ty) : CallTrace :=
  match tr.yield_type with
  | Option.none => { tr with yield_type := some typ }
  | some y => { tr with yield_type := some (pyUnion [y, typ]) }

/-- The bytecode instruction at the frame's last instruction offset, as
far as the tracer distinguishes it: `RETURN_VALUE`, `YIELD_VALUE`, or
anything else (which is what an unwind due to an unhandled exception
leaves behind). -/
inductive Opcode where
  | returnValue
  | yieldValue
  | other
  deriving DecidableEq

/-- The slice of a CPython stack frame the tracer reads: the frame
identity (the key of `self.traces`), the code object identity (the key
of `self.cache`), `f_code.co_name`, the opcode at `f_lasti`, the
declared argument names `co_varnames[:co_argcount]`, and `f_locals`. -/
structure Frame where
  fid : Nat
  codeId : Nat
  codeName : String
  lastOp : Opcode
  argNames : List String
  locals : List (String × PyVal)

/-- The ambient operations a `CallTracer` relies on.  `resolver` models
`get_func` (code-object-to-function resolution) and `typer` models
`get_type`; both may raise, which an `Except.error` represents.
`codeFilter` is the optional `should_trace` predicate over code objects
and `sampleRate` the optional sampling rate. -/
structure TracerEnv where
  resolver : Frame → Except String (Option FuncId)
  typer : PyVal → Except String Ty
  codeFilter : Option (Nat → Bool)
  sampleRate : Option Nat

/-- The `get_type` of the code base never raises. -/
def stdTyper : PyVal → Except String Ty := fun v => .ok (get_type v)

/-- Mutable state of a `CallTracer`: the in-flight traces keyed by
frame, the traces handed to `logger.log` so far (in order), the
code-object-to-function cache, and the number of
"Failed collecting trace" error logs emitted. -/
structure TracerState where
  traces : List (Nat × CallTrace)
  logged : List CallTrace
  cache : List (Nat × Option FuncId)
  errors : Nat

/-- Replace the binding of a key in an association list, or append it. -/
def upsert (k : Nat) (v : CallTrace) : List (Nat × CallTrace) → List (Nat × CallTrace)
  | [] => [(k, v)]
  | (k', v') :: rest => if k = k' then (k, v) :: rest else (k', v') :: upsert k v rest

/-- Remove the binding of a key from an association list (`del d[k]`). -/
def removeKey (k : Nat) : List (Nat × CallTrace) → List (Nat × CallTrace)
  | [] => []
  | (k', v') :: rest => if k = k' then rest else (k', v') :: removeKey k rest

/-- Embedding of `CallTracer._get_func`: consult the cache; on a miss
run the resolver and cache its answer.  A resolver exception propagates
(carrying the unchanged state) and leaves the cache unfilled. -/
def getFuncCached (env : TracerEnv) (st : TracerState) (f : Frame) :
    Except (String × TracerState) (Option FuncId × TracerState) :=
  match st.cache.lookup f.codeId with
  | some cached => .ok (cached, st)
  | Option.none =>
      match env.resolver f with
      | .error e => .error (e, st)
      | .ok fn => .ok (fn, { st with cache := (f.codeId, fn) :: st.cache })

/-- Sampling test of `handle_call`: with a truthy sample rate, only a
draw of 0 from `random.randrange(sample_rate)` begins tracing. -/
def sampleSkip (rate : Option Nat) (draw : Nat) : Bool :=
  match rate with
  | some r => r ≠ 0 && draw ≠ 0
  | Option.none => false

/-- Argument snapshot of `handle_call`: for each declared argument name
present in the frame's locals, record the observed type of its value;
an exception of the typer propagates with the state it was raised in. -/
def collectArgTypes (typer : PyVal → Except String Ty)
    (locals : List (String × PyVal)) : List String → Except String (List (String × Ty))
  | [] => .ok []
  | n :: ns =>
      match locals.lookup n with
      | Option.none => collectArgTypes typer locals ns
      | some v =>
          match typer v with
          | .error e => .error e
          | .ok t =>
              match collectArgTypes typer locals ns with
              | .error e => .error e
              | .ok rest => .ok ((n, t) :: rest)

/-- Embedding of `CallTracer.handle_call`: honor sampling, resolve the
function (caching by code object), ignore unresolved calls and
generator resumptions (a `YIELD_VALUE` at the current instruction),
snapshot the argument types and create the in-flight `CallTrace`.
Errors carry the state at the point they were raised. -/
def CallTracer.handle_call (env : TracerEnv) (st : TracerState) (f : Frame)
    (draw : Nat) : Except (String × TracerState) TracerState :=
  if sampleSkip env.sampleRate draw then .ok st
  else
    match getFuncCached env st f with
    | .error es => .error es
    | .ok (fn, st₁) =>
        match fn with
        | Option.none => .ok st₁
        | some func =>
            if f.lastOp = .yieldValue then .ok st₁
            else
              match collectArgTypes env.typer f.locals f.argNames with
              | .error e => .error (e, st₁)
              | .ok argTypes =>
                  .ok { st₁ with
                    traces := upsert f.fid ⟨func, argTypes, Option.none, Option.none⟩ st₁.traces }

/-- Embedding of `CallTracer.handle_return`: compute the type of the
returned (or yielded) value, look up the in-flight trace for the frame
(no-op when there is none); a `YIELD_VALUE` at the current instruction
folds the type into the trace's yield type and keeps the trace
in-flight; otherwise the trace is finalized — its return type is set to
the observed type only when the last instruction was `RETURN_VALUE`
(a normal return), and is left as it was (absent) when the frame is
unwinding due to an unhandled exception — removed from the in-flight
table and handed to the logger. -/
def CallTracer.handle_return (env : TracerEnv) (st : TracerState) (f : Frame)
    (arg : PyVal) : Except (String × TracerState) TracerState :=
  match env.typer arg with
  | .error e => .error (e, st)
  | .ok typ =>
      match st.traces.lookup f.fid with
      | Option.none => .ok st
      | some trace =>
          if f.lastOp = .yieldValue then
            .ok { st with traces := upsert f.fid (trace.add_yield_type typ) st.traces }
          else
            let trace' :=
              if f.lastOp = .returnValue then { trace with return_type := some typ }
              else trace
            .ok { st with
              traces := removeKey f.fid st.traces,
              logged := st.logged ++ [trace'] }

/-- A profile-hook event as `CallTracer.__call__` receives it: a `call`
event (with the sampling draw made at call time), a `return` event
carrying the returned value, or any other event kind (for example
`c_call`), which is unsupported. -/
inductive TraceEvent where
  | call (draw : Nat)
  | ret (arg : PyVal)
  | cEvent (name : String)

/-- The body of the `try` block in `CallTracer.__call__`. -/
def CallTracer.dispatch (env : TracerEnv) (st : TracerState) (f : Frame) :
    TraceEvent → Except (String × TracerState) TracerState
  | .call draw => CallTracer.handle_call env st f draw
  | .ret arg => CallTracer.handle_return env st f arg
  | .cEvent _ => .ok st

/-- Embedding of `CallTracer.__call__`: unsupported events, the
tracer's own `trace_types` code and filtered-out code objects are
ignored before the `try` block; inside it, the event is dispatched and
any exception is caught and logged (`errors` counts the
"Failed collecting trace" logs), so the hook itself never raises into
the traced program. -/
def CallTracer.call (env : TracerEnv) (st : TracerState) (f : Frame)
    (ev : TraceEvent) : Except String TracerState :=
  if (match ev with | .cEvent _ => true | _ => false)
      || f.codeName = "trace_types"
      || (match env.codeFilter with | some p => !p f.codeId | Option.none => false) then
    .ok st
  else
    match CallTracer.dispatch env st f ev with
    | .ok st' => .ok st'
    | .error (_, stAt) => .ok { stAt with errors := stAt.errors + 1 }

/-!
Embedding of the `trace_calls` context manager.
-/

/-- The process-global state `trace_calls` touches: the profile-hook
slot (`sys.getprofile` / `sys.setprofile`, hooks named by identifiers)
and the number of `logger.flush()` calls made so far. -/
structure SysState where
  profileHook : Option Nat
  flushes : Nat

/-- How the body of the `with trace_calls(...)` block exited. -/
inductive BodyOutcome where
  | normal
  | raised (e : String)

/-- Embedding of `trace_calls`: remember the previous profile hook,
install the new tracer, run the body (an arbitrary state transformer
that reports whether it returned normally or raised), and — in a
`finally` block, hence on both exit paths — restore the previous hook
and flush the logger once; the body's outcome is propagated. -/
def trace_calls (st : SysState) (tracerHook : Nat)
    (body : SysState → BodyOutcome × SysState) : BodyOutcome × SysState :=
  let old_trace := st.profileHook
  let afterBody := body { st with profileHook := some tracerHook }
  (afterBody.1,
    { afterBody.2 with profileHook := old_trace, flushes := afterBody.2.flushes + 1 })

/-!
The following definitions embed `monkeytype/db/base.py`
(`CallTraceStoreLogger`).
-/

/-- State of a `CallTraceStoreLogger` together with its backing store:
`buffer` is `self.traces`, and `store` records the batches passed to
`store.add`, one entry per `flush()`. -/
structure StoreLoggerState where
  buffer : List CallTrace
  store : List (List CallTrace)

/-- Embedding of `CallTraceStoreLogger.log`: buffer the trace unless
its function was defined in `__main__`. -/
def storeLog (st : StoreLoggerState) (t : CallTrace) : StoreLoggerState :=
  if t.func.module ≠ "__main__" then { st with buffer := st.buffer ++ [t] } else st

/-- Embedding of `CallTraceStoreLogger.flush`: hand the whole buffer to
`store.add` and empty it. -/
def storeFlush (st : StoreLoggerState) : StoreLoggerState :=
  { buffer := [], store := st.store ++ [st.buffer] }

/-- One operation on a `CallTraceStoreLogger`. -/
inductive LoggerOp where
  | log (t : CallTrace)
  | flush

/-- Run a sequence of logger operations. -/
def runLogger : StoreLoggerState → List LoggerOp → StoreLoggerState
  | st, [] => st
  | st, .log t :: ops => runLogger (storeLog st t) ops
  | st, .flush :: ops => runLogger (storeFlush st) ops

/-- The state of a freshly constructed `CallTraceStoreLogger`. -/
def initLogger : StoreLoggerState := ⟨[], []⟩

namespace Sized

/-!
Modelled from the spec: the budget-aware value typer and shrinker of
`monkeytype/typing.py` are missing from the source tree —
`src/monkeytype/typing.py` holds an older version whose `get_type` and
`shrink_types` take no `max_typed_dict_size` parameter, while
`stubs.py`, `encoding.py` and `tests/test_typing.py` all call the
budget-aware API (`shrink_types(ts, max_typed_dict_size)`,
`get_type(value, max_typed_dict_size)`, `is_typed_dict`, ...).  The
definitions in this namespace therefore follow the specification's
§4.1 (value typer rules), §4.3 (record-shape to mapping normalization)
and §4.4 (shrinker and record-shape merge), faithful to its words.
-/

/-- The placeholder name given to synthesized anonymous record-shape
(`TypedDict`) types; record-shape equality is structural, so the name
carries no information. -/
def DUMMY_TYPED_DICT_NAME : String := "DUMMY_NAME"

/-- Is the type an (anonymous) record-shape? -/
def isShaped : Ty → Bool
  | .shaped _ _ => true
  | _ => false

/-- The fields of a record-shape type. -/
def shapeFields : Ty → List (String × Ty × Bool)
  | .shaped _ fs => fs
  | _ => []

mutual

/-- Modelled from the spec (§4.3, record-shape → generic mapping):
replace a record-shape type, recursively, with a generic mapping whose
value type is the union of all field types; an empty record-shape
becomes a mapping of unknown to unknown. -/
def shapeToDict : Ty → Ty
  | .shaped _ fs =>
      match shapeFieldTypes fs with
      | [] => .dict .any .any
      | ts => .dict (.class_ .strC) (pyUnion ts)
  | .typeOf t => .typeOf (shapeToDict t)
  | .list t => .list (shapeToDict t)
  | .set t => .set (shapeToDict t)
  | .dict k v => .dict (shapeToDict k) (shapeToDict v)
  | .tuple ts => .tuple (shapeToDictList ts)
  | .tupleVar t => .tupleVar (shapeToDict t)
  | .iterator t => .iterator (shapeToDict t)
  | .generator y s r => .generator (shapeToDict y) (shapeToDict s) (shapeToDict r)
  | .union ts => .union (shapeToDictList ts)
  | t => t

/-- Pointwise normalization of type lists. -/
def shapeToDictList : List Ty → List Ty
  | [] => []
  | t :: ts => shapeToDict t :: shapeToDictList ts

/-- Normalized types of a record-shape's fields. -/
def shapeFieldTypes : List (String × Ty × Bool) → List Ty
  | [] => []
  | (_, t, _) :: fs => shapeToDict t :: shapeFieldTypes fs

end

/-- The type of field `k`, in the record-shapes that have the field. -/
def lookupField (k : String) : List (String × Ty × Bool) → Option Ty
  | [] => Option.none
  | (k', t, _) :: fs => if k = k' then some t else lookupField k fs

/-- All field keys across the input record-shapes, first occurrence
first. -/
def mergedKeys (shapes : List (List (String × Ty × Bool))) : List String :=
  dedupFirst (shapes.flatMap (fun fs => fs.map (fun f => f.1)))

/-- The types field `k` has in the record-shapes where it appears. -/
def keyTypes (k : String) (shapes : List (List (String × Ty × Bool))) : List Ty :=
  shapes.filterMap (lookupField k)

/-- Modelled from the spec (§4.4, record-shape merge): a field present
in every input is required, a field present in only some is optional;
its type is the union of its types in the inputs where it appears (a
single type stays itself).  If the merged shape would have more
distinct fields than the budget, fall back to a generic string-keyed
mapping whose value type is the union of every field type across all
inputs. -/
def mergeShapes (shapes : List (List (String × Ty × Bool))) (budget : Nat) : Ty :=
  let keys := mergedKeys shapes
  if budget < keys.length then
    .dict (.class_ .strC) (pyUnion (shapes.flatMap (fun fs => fs.map (fun f => f.2.1))))
  else
    .shaped DUMMY_TYPED_DICT_NAME
      (keys.map fun k =>
        (k, pyUnion (dedupFirst (keyTypes k shapes)),
          shapes.all fun fs => (lookupField k fs).isSome))

/-- Modelled from the spec (§4.4): the budget-aware
`shrink_types(types, max_typed_dict_size)`.  Zero inputs shrink to the
unknown type; one input (after deduplication by structural equality) is
returned unchanged; a collection of record-shapes is merged
field-by-field under the budget; otherwise the inputs are unioned after
normalizing any record-shapes among them to generic mappings. -/
def shrink_types (types : List Ty) (max_typed_dict_size : Nat) : Ty :=
  match dedupFirst types with
  | [] => .any
  | [t] => t
  | ts =>
      if ts.all isShaped then mergeShapes (ts.map shapeFields) max_typed_dict_size
      else pyUnion (ts.map shapeToDict)

/-- Is the value a plain string? -/
def isStrVal : PyVal → Bool
  | .str _ => true
  | _ => false

/-- The underlying string of a string value. -/
def strOf : PyVal → String
  | .str s => s
  | _ => ""

/-- All keys of the dict's items are plain strings. -/
def allStrKeys (es : List (PyVal × PyVal)) : Bool :=
  es.all fun e => isStrVal e.1

mutual

/-- Modelled from the spec (§4.1): the budget-aware
`get_type(value, max_typed_dict_size)`.  Rules in priority order: a
class object becomes `Type[cls]`; a callable becomes `Callable`; a live
generator becomes `Iterator[Any]`; lists and sets shrink their element
types with the same budget (an empty one has element type `Any` via the
empty shrink); a tuple is typed per position, the empty tuple being the
distinguished zero-arity tuple type; a dict whose budget is 0, or with
a non-string key, or with more distinct keys than the budget becomes a
generic mapping of the shrunk key and value types, and otherwise a
record-shape with one required field per key, each field's type
computed recursively with the same budget; anything else is typed as
its runtime class.  (The entries of a `dictV` model `dict.items()`, so
their length is the number of distinct keys.) -/
def get_type (v : PyVal) (budget : Nat) : Ty :=
  match v with
  | .classV c => .typeOf (.class_ c)
  | .funcV _ => .callable
  | .genV _ => .iterator .any
  | .listV xs => .list (shrink_types (getTypeList xs budget) budget)
  | .setV xs => .set (shrink_types (getTypeList xs budget) budget)
  | .tupleV xs => .tuple (getTypeList xs budget)
  | .dictV es =>
      if budget = 0 || (!allStrKeys es || budget < es.length) then
        .dict (shrink_types (getTypeKeys es budget) budget)
          (shrink_types (getTypeVals es budget) budget)
      else .shaped DUMMY_TYPED_DICT_NAME (shapedFields es budget)
  | .none => .class_ .noneTypeC
  | .bool _ => .class_ .boolC
  | .int _ => .class_ .intC
  | .str _ => .class_ .strC
  | .instV c _ => .class_ c

/-- Budget-aware types of the elements of a list of values. -/
def getTypeList : List PyVal → Nat → List Ty
  | [], _ => []
  | x :: xs, budget => get_type x budget :: getTypeList xs budget

/-- Budget-aware types of the keys of a dict's items. -/
def getTypeKeys : List (PyVal × PyVal) → Nat → List Ty
  | [], _ => []
  | (k, _) :: es, budget => get_type k budget :: getTypeKeys es budget

/-- Budget-aware types of the values of a dict's items. -/
def getTypeVals : List (PyVal × PyVal) → Nat → List Ty
  | [], _ => []
  | (_, v) :: es, budget => get_type v budget :: getTypeVals es budget

/-- One required record-shape field per dict item. -/
def shapedFields : List (PyVal × PyVal) → Nat → List (String × Ty × Bool)
  | [], _ => []
  | (k, v) :: es, budget => (strOf k, get_type v budget, true) :: shapedFields es budget

end

end Sized

/-!
The following definitions embed `monkeytype/stubs.py`
`shrink_traced_types`, which merges the traces of one call site.  The
Python sets accumulating the observed types are modelled as
insertion-ordered duplicate-free lists.
-/

/-- Add an element to a set modelled as an insertion-ordered
duplicate-free list. -/
def addUnique (ts : List Ty) (t : Ty) : List Ty :=
  if t ∈ ts then ts else ts ++ [t]

/-- A list as a set: fold every element in, keeping first insertions. -/
def setOfList (l : List Ty) : List Ty :=
  l.foldl addUnique []

/-- The set of present values of an optional field over the traces. -/
def collectPresent (f : CallTrace → Option Ty) (traces : List CallTrace) : List Ty :=
  traces.foldl
    (fun acc tr =>
      match f tr with
      | some t => addUnique acc t
      | Option.none => acc)
    []

/-- `arg_types` accumulation of `shrink_traced_types`: a
`defaultdict(set)` keyed by argument name. -/
def addArg (acc : List (String × List Ty)) (name : String) (t : Ty) :
    List (String × List Ty) :=
  match acc with
  | [] => [(name, [t])]
  | (n, ts) :: rest =>
      if n = name then (n, addUnique ts t) :: rest else (n, ts) :: addArg rest name t

/-- The per-argument sets of observed types over the traces. -/
def collectArgSets (traces : List CallTrace) : List (String × List Ty) :=
  traces.foldl (fun acc tr => tr.arg_types.foldl (fun a p => addArg a p.1 p.2) acc) []

/-- Embedding of `stubs.py` `shrink_traced_types`: collect the observed
argument types per name, the observed return types of the traces that
have one, and the observed yield types of the traces that have one;
shrink each collection under the budget; the return (resp. yield) type
of the merged signature is `None` when no trace has one. -/
def shrink_traced_types (traces : List CallTrace) (max_typed_dict_size : Nat) :
    List (String × Ty) × Option Ty × Option Ty :=
  let return_types := collectPresent (fun tr => tr.return_type) traces
  let yield_types := collectPresent (fun tr => tr.yield_type) traces
  ((collectArgSets traces).map fun p => (p.1, Sized.shrink_types p.2 max_typed_dict_size),
   if return_types.isEmpty then Option.none
   else some (Sized.shrink_types return_types max_typed_dict_size),
   if yield_types.isEmpty then Option.none
   else some (Sized.shrink_types yield_types max_typed_dict_size))

/-!
The following definitions embed `monkeytype/encoding.py`:
`type_to_dict` / `type_from_dict` and the json layer
`type_to_json` / `type_from_json`.  The name resolution of
`util.get_name_in_module` (Python's import machinery) is modelled by a
closed resolution table over the embedding's class universe, in which
every class's module and qualified name resolve back to that class.
JSON text is modelled by the abstract syntax `J`; the decoder reads the
canonical layout `json.dumps(..., sort_keys=True)` produces. -/

/-- The defining module of each class in the universe. -/
def ClassName.module : ClassName → String
  | .A | .B | .C | .D | .E | .F | .G => "tests.util"
  | _ => "builtins"

/-- The qualified name of each class in the universe. -/
def ClassName.qualname : ClassName → String
  | .obj => "object"
  | .intC => "int"
  | .boolC => "bool"
  | .strC => "str"
  | .floatC => "float"
  | .bytesC => "bytes"
  | .noneTypeC => "NoneType"
  | .notImplementedTypeC => "NotImplementedType"
  | .mappingproxyC => "mappingproxy"
  | .A => "A"
  | .B => "B"
  | .C => "C"
  | .D => "D"
  | .E => "E"
  | .F => "F"
  | .G => "G"

/-- The generic aliases of the `typing` module the encoder can name. -/
inductive GenericName where
  | listG
  | setG
  | dictG
  | tupleG
  | typeG
  | iteratorG
  | generatorG
  | callableG
  | unionG
  deriving DecidableEq

/-- What a module attribute looked up by `get_name_in_module` can be:
a class, a `typing` generic alias, or `typing.Any`. -/
inductive PyObjRef where
  | cls (c : ClassName)
  | generic (g : GenericName)
  | anyRef

/-- Model of `util.get_name_in_module` over the closed universe: the
`typing` aliases by name, the builtins by qualified name — but not the
hidden builtins (`builtins` has no `NoneType`, `NotImplementedType` or
`mappingproxy` attribute, which is why `_HIDDEN_BUILTIN_TYPES`
exists — and the test classes in their module.  Anything else raises
`NameLookupError`. -/
def get_name_in_module (module qualname : String) : Except String PyObjRef :=
  if module = "typing" then
    if qualname = "List" then .ok (.generic .listG)
    else if qualname = "Set" then .ok (.generic .setG)
    else if qualname = "Dict" then .ok (.generic .dictG)
    else if qualname = "Tuple" then .ok (.generic .tupleG)
    else if qualname = "Type" then .ok (.generic .typeG)
    else if qualname = "Iterator" then .ok (.generic .iteratorG)
    else if qualname = "Generator" then .ok (.generic .generatorG)
    else if qualname = "Callable" then .ok (.generic .callableG)
    else if qualname = "Union" then .ok (.generic .unionG)
    else if qualname = "Any" then .ok .anyRef
    else .error "NameLookupError"
  else if module = "builtins" then
    if qualname = "object" then .ok (.cls .obj)
    else if qualname = "int" then .ok (.cls .intC)
    else if qualname = "bool" then .ok (.cls .boolC)
    else if qualname = "str" then .ok (.cls .strC)
    else if qualname = "float" then .ok (.cls .floatC)
    else if qualname = "bytes" then .ok (.cls .bytesC)
    else .error "NameLookupError"
  else if module = "tests.util" then
    if qualname = "A" then .ok (.cls .A)
    else if qualname = "B" then .ok (.cls .B)
    else if qualname = "C" then .ok (.cls .C)
    else if qualname = "D" then .ok (.cls .D)
    else if qualname = "E" then .ok (.cls .E)
    else if qualname = "F" then .ok (.cls .F)
    else if qualname = "G" then .ok (.cls .G)
    else .error "NameLookupError"
  else .error "NameLookupError"

/-- Embedding of `encoding._HIDDEN_BUILTIN_TYPES`: the builtin types
that are inaccessible by name in the `builtins` module. -/
def hiddenBuiltin : String → Option ClassName
  | "NoneType" => some .noneTypeC
  | "NotImplementedType" => some .notImplementedTypeC
  | "mappingproxy" => some .mappingproxyC
  | _ => Option.none

/-- Name resolution as `type_from_dict` performs it: the hidden
builtins table first, then `get_name_in_module`. -/
def resolveName (module qualname : String) : Except String PyObjRef :=
  if module = "builtins" then
    match hiddenBuiltin qualname with
    | some c => .ok (.cls c)
    | Option.none => get_name_in_module module qualname
  else get_name_in_module module qualname

/-- The dictionary representation a type is converted to before JSON
encoding: `module`, `qualname`, optionally `elem_types`; a `TypedDict`
is encoded with its field mapping and `is_typed_dict: true`. -/
inductive TD where
  | basic (module qualname : String) (elem_types : Option (List TD))
  | typedDict (module qualname : String) (fields : List (String × TD))

mutual

/-- Embedding of `encoding.type_to_dict`.  A class maps to its module
and qualified name; `Any`, `Union` and the generics map to their
`typing` names, with their arguments encoded recursively under
`elem_types` when present and truthy (so the bare `Tuple` and
`Callable` and an argument-less union carry no `elem_types`, and
`Tuple[()]`'s weird `((),)` arguments become `[]`); a record-shape maps
to its annotations with `is_typed_dict` set.  Encoding `Tuple[V, ...]`
raises: its second argument `Ellipsis` has no `__qualname__`. -/
def type_to_dict : Ty → Except String TD
  | .any => .ok (.basic "typing" "Any" Option.none)
  | .class_ c => .ok (.basic c.module c.qualname Option.none)
  | .callable => .ok (.basic "typing" "Callable" Option.none)
  | .tupleAny => .ok (.basic "typing" "Tuple" Option.none)
  | .typeOf t =>
      match type_to_dict t with
      | .error e => .error e
      | .ok d => .ok (.basic "typing" "Type" (some [d]))
  | .list t =>
      match type_to_dict t with
      | .error e => .error e
      | .ok d => .ok (.basic "typing" "List" (some [d]))
  | .set t =>
      match type_to_dict t with
      | .error e => .error e
      | .ok d => .ok (.basic "typing" "Set" (some [d]))
  | .iterator t =>
      match type_to_dict t with
      | .error e => .error e
      | .ok d => .ok (.basic "typing" "Iterator" (some [d]))
  | .dict k v =>
      match type_to_dict k with
      | .error e => .error e
      | .ok dk =>
          match type_to_dict v with
          | .error e => .error e
          | .ok dv => .ok (.basic "typing" "Dict" (some [dk, dv]))
  | .generator y s r =>
      match type_to_dict y with
      | .error e => .error e
      | .ok dy =>
          match type_to_dict s with
          | .error e => .error e
          | .ok ds =>
              match type_to_dict r with
              | .error e => .error e
              | .ok dr => .ok (.basic "typing" "Generator" (some [dy, ds, dr]))
  | .tuple ts =>
      match typeToDictList ts with
      | .error e => .error e
      | .ok ds => .ok (.basic "typing" "Tuple" (some ds))
  | .tupleVar _ => .error "AttributeError: Ellipsis has no attribute qualname"
  | .union ts =>
      match typeToDictList ts with
      | .error e => .error e
      | .ok ds => .ok (.basic "typing" "Union" (if ds.isEmpty then Option.none else some ds))
  | .shaped n fs =>
      match fieldsToDict fs with
      | .error e => .error e
      | .ok ds => .ok (.typedDict "monkeytype.typing" n ds)

/-- Encode each element type. -/
def typeToDictList : List Ty → Except String (List TD)
  | [] => .ok []
  | t :: ts =>
      match type_to_dict t with
      | .error e => .error e
      | .ok d =>
          match typeToDictList ts with
          | .error e => .error e
          | .ok ds => .ok (d :: ds)

/-- Encode each record-shape field's annotation. -/
def fieldsToDict : List (String × Ty × Bool) → Except String (List (String × TD))
  | [] => .ok []
  | (k, t, _) :: fs =>
      match type_to_dict t with
      | .error e => .error e
      | .ok d =>
          match fieldsToDict fs with
          | .error e => .error e
          | .ok ds => .ok ((k, d) :: ds)

end

/-- Reifying a name that came without `elem_types`: classes and `Any`
stand for themselves; of the bare generic aliases only `Tuple` and
`Callable` are in the embedding's type vocabulary. -/
def bareForm : PyObjRef → Except String Ty
  | .cls c => .ok (.class_ c)
  | .anyRef => .ok .any
  | .generic .tupleG => .ok .tupleAny
  | .generic .callableG => .ok .callable
  | .generic _ => .error "bare generic outside the embedded type vocabulary"

/-- Python `typ[tuple(elem_types)]` for the generic aliases: rebuild
the parametrized type; `Union[()]` raises, as does an argument count no
subscription accepts. -/
def subscriptGeneric : GenericName → List Ty → Except String Ty
  | .listG, [t] => .ok (.list t)
  | .setG, [t] => .ok (.set t)
  | .dictG, [k, v] => .ok (.dict k v)
  | .tupleG, ts => .ok (.tuple ts)
  | .typeG, [t] => .ok (.typeOf t)
  | .iteratorG, [t] => .ok (.iterator t)
  | .generatorG, [y, s, r] => .ok (.generator y s r)
  | .unionG, [] => .error "Cannot take a Union of no types"
  | .unionG, ts => .ok (pyUnion ts)
  | .callableG, _ => .error "Callable subscription outside the embedded type vocabulary"
  | _, _ => .error "TypeError: wrong number of parameters"

mutual

/-- Embedding of `encoding.type_from_dict`: a `TypedDict` entry
rebuilds the record-shape from its annotations; otherwise the module
and qualified name are resolved (hidden builtins first), and when
`elem_types` is present and the resolved object is a generic alias the
element types are reified recursively and the alias subscripted. -/
def type_from_dict : TD → Except String Ty
  | .typedDict _ q fields =>
      match fieldsFromDict fields with
      | .error e => .error e
      | .ok fs => .ok (.shaped q fs)
  | .basic module qualname elems =>
      match resolveName module qualname with
      | .error e => .error e
      | .ok ref =>
          match elems with
          | Option.none => bareForm ref
          | some ds =>
              match ref with
              | .cls c => .ok (.class_ c)
              | .anyRef => .ok .any
              | .generic g =>
                  match tdListFrom ds with
                  | .error e => .error e
                  | .ok ts => subscriptGeneric g ts

/-- Reify each element type. -/
def tdListFrom : List TD → Except String (List Ty)
  | [] => .ok []
  | d :: ds =>
      match type_from_dict d with
      | .error e => .error e
      | .ok t =>
          match tdListFrom ds with
          | .error e => .error e
          | .ok ts => .ok (t :: ts)

/-- Reify each record-shape field (a reconstructed `TypedDict`'s
fields are all required). -/
def fieldsFromDict : List (String × TD) → Except String (List (String × Ty × Bool))
  | [] => .ok []
  | (k, d) :: ds =>
      match type_from_dict d with
      | .error e => .error e
      | .ok t =>
          match fieldsFromDict ds with
          | .error e => .error e
          | .ok ts => .ok ((k, t, true) :: ts)

end

/-- JSON values, the image of `json.dumps` / the input of
`json.loads`. -/
inductive J where
  | str (s : String)
  | arr (xs : List J)
  | obj (fields : List (String × J))
  | bool (b : Bool)

mutual

/-- The canonical JSON layout of a type dictionary, with the keys in
the sorted order `json.dumps(..., sort_keys=True)` prints
(`elem_types` < `is_typed_dict` < `module` < `qualname`); a
`TypedDict`'s field mapping is likewise emitted with sorted keys. -/
def tdToJson : TD → J
  | .basic m q Option.none => .obj [("module", .str m), ("qualname", .str q)]
  | .basic m q (some ds) =>
      .obj [("elem_types", .arr (tdListToJson ds)),
            ("module", .str m), ("qualname", .str q)]
  | .typedDict m q fields =>
      .obj [("elem_types", .obj ((fieldsToJson fields).mergeSort
              (fun a b => a.1 ≤ b.1))),
            ("is_typed_dict", .bool true),
            ("module", .str m), ("qualname", .str q)]

/-- Encode each element dictionary. -/
def tdListToJson : List TD → List J
  | [] => []
  | d :: ds => tdToJson d :: tdListToJson ds

/-- Encode each field's dictionary. -/
def fieldsToJson : List (String × TD) → List (String × J)
  | [] => []
  | (k, d) :: ds => (k, tdToJson d) :: fieldsToJson ds

end

mutual

/-- Parse the canonical JSON layout back into a type dictionary. -/
def jsonToTd : J → Except String TD
  | .obj [("module", .str m), ("qualname", .str q)] => .ok (.basic m q Option.none)
  | .obj [("elem_types", .arr xs), ("module", .str m), ("qualname", .str q)] =>
      match jarrToTd xs with
      | .error e => .error e
      | .ok ds => .ok (.basic m q (some ds))
  | .obj [("elem_types", .obj fs), ("is_typed_dict", .bool true),
          ("module", .str m), ("qualname", .str q)] =>
      match jfieldsToTd fs with
      | .error e => .error e
      | .ok ds => .ok (.typedDict m q ds)
  | _ => .error "not a type dictionary"

/-- Parse each element. -/
def jarrToTd : List J → Except String (List TD)
  | [] => .ok []
  | x :: xs =>
      match jsonToTd x with
      | .error e => .error e
      | .ok d =>
          match jarrToTd xs with
          | .error e => .error e
          | .ok ds => .ok (d :: ds)

/-- Parse each field. -/
def jfieldsToTd : List (String × J) → Except String (List (String × TD))
  | [] => .ok []
  | (k, x) :: xs =>
      match jsonToTd x with
      | .error e => .error e
      | .ok d =>
          match jfieldsToTd xs with
          | .error e => .error e
          | .ok ds => .ok ((k, d) :: ds)

end

/-- Embedding of `encoding.type_to_json`: encode as a dictionary, then
dump as (canonical) JSON. -/
def type_to_json (t : Ty) : Except String J :=
  match type_to_dict t with
  | .error e => .error e
  | .ok d => .ok (tdToJson d)

/-- Embedding of `encoding.type_from_json`: load the JSON, then reify
the dictionary. -/
def type_from_json (j : J) : Except String Ty :=
  match jsonToTd j with
  | .error e => .error e
  | .ok d => type_from_dict d

/-- The types the encoding round-trips by construction: `Any`, the
classes of the universe (whose module and qualified name resolve back
to the same class, `NoneType` and friends via the hidden-builtins
table), the bare `Callable` and `Tuple`, parametrized generics with
encodable arguments, and well-formed unions (at least two members, no
nested union, no duplicates — exactly the invariants every union object
built by `typing.Union[...]` has). -/
inductive Encodable : Ty → Prop where
  | any : Encodable .any
  | class_ (c : ClassName) : Encodable (.class_ c)
  | callable : Encodable .callable
  | tupleAny : Encodable .tupleAny
  | typeOf {t : Ty} : Encodable t → Encodable (.typeOf t)
  | list {t : Ty} : Encodable t → Encodable (.list t)
  | set {t : Ty} : Encodable t → Encodable (.set t)
  | iterator {t : Ty} : Encodable t → Encodable (.iterator t)
  | dict {k v : Ty} : Encodable k → Encodable v → Encodable (.dict k v)
  | generator {y s r : Ty} :
      Encodable y → Encodable s → Encodable r → Encodable (.generator y s r)
  | tuple {ts : List Ty} : (∀ t ∈ ts, Encodable t) → Encodable (.tuple ts)
  | union {ts : List Ty} :
      2 ≤ ts.length →
      (∀ t ∈ ts, Encodable t) →
      (∀ t ∈ ts, ∀ us, t ≠ .union us) →
      ts.Nodup →
      Encodable (.union ts)

/-- The traces a sequence of operations logs whose function is not from
`__main__`, in order. -/
def nonMainTraces (ops : List LoggerOp) : List CallTrace :=
  ops.filterMap fun op =>
    match op with
    | .log t => if t.func.module ≠ "__main__" then some t else Option.none
    | .flush => Option.none

/-!
The following definitions embed the type rewriters of
`monkeytype/typing.py` used by the checked claims:
`RemoveEmptyContainers` and `RewriteLargeUnion`.  Both dispatch through
`TypeRewriter.rewrite` on the name of the type: `Dict`, `List`, `Set`
and `Tuple` use the inherited `_rewrite_container` (rebuild with
recursively rewritten arguments, bare containers unchanged), `Union`
uses the subclass's `rewrite_Union`, and every other type falls back to
`generic_rewrite`, i.e. is returned unchanged.
-/

/-- Python `is_any`. -/
def isAny : Ty → Bool
  | .any => true
  | _ => false

namespace RemoveEmptyContainers

/-- Embedding of `RemoveEmptyContainers._is_empty`: the type's
`__args__` (defaulting to an empty list) is non-empty and every
argument is `Any`.  `Tuple[()]` has `((),)` as arguments — the inner
empty tuple is a value, not `Any` — and bare containers have no
arguments, so neither counts as empty. -/
def isEmpty : Ty → Bool
  | .typeOf t => isAny t
  | .list t => isAny t
  | .set t => isAny t
  | .dict k v => isAny k && isAny v
  | .tuple ts => !ts.isEmpty && ts.all isAny
  | .iterator t => isAny t
  | .generator y s r => isAny y && (isAny s && isAny r)
  | .union ts => !ts.isEmpty && ts.all isAny
  | _ => false

mutual

/-- Embedding of `RemoveEmptyContainers.rewrite`: containers rebuild
with recursively rewritten arguments; `rewrite_Union` drops every
member that `_is_empty` holds of, rewrites the survivors, and rebuilds
`Union[elems]` — unless no member survives, in which case the original
union is returned; all other types are returned unchanged. -/
def rewrite : Ty → Ty
  | .list t => .list (rewrite t)
  | .set t => .set (rewrite t)
  | .dict k v => .dict (rewrite k) (rewrite v)
  | .tuple ts => .tuple (rewriteList ts)
  | .tupleVar t => .tupleVar (rewrite t)
  | .union ts =>
      match unionElems ts with
      | [] => .union ts
      | elems => pyUnion elems
  | t => t

/-- Pointwise rewriting of container arguments. -/
def rewriteList : List Ty → List Ty
  | [] => []
  | t :: ts => rewrite t :: rewriteList ts

/-- The subterm `tuple(self.rewrite(e) for e in union.__args__ if not
self._is_empty(e))` of `rewrite_Union`. -/
def unionElems : List Ty → List Ty
  | [] => []
  | t :: ts => if isEmpty t then unionElems ts else rewrite t :: unionElems ts

end

/-- The survivor computation is a filter followed by a map. -/
theorem unionElems_eq_filter_map (ts : List Ty) :
    unionElems ts = (ts.filter (fun t => !isEmpty t)).map rewrite := by
  induction ts with
  | nil => rfl
  | cons t ts ih =>
    by_cases h : isEmpty t <;> simp [unionElems, h, ih]

end RemoveEmptyContainers

namespace RewriteLargeUnion

/-- The default `max_union_len` of `RewriteLargeUnion.__init__`. -/
def defaultMaxUnionLen : Nat := 5

/-- The running `value_type` of `_rewrite_to_tuple`: not yet assigned
(`None`), assigned the falsy empty tuple `()` (the sole argument of
`Tuple[()]`), or assigned a real type. -/
inductive TupleAcc where
  | unset
  | emptyTup
  | val (t : Ty)

/-- Python `value_type = value_type or <first-arg>`: a falsy
accumulator (`None` or `()`) is replaced. -/
def accOr (acc : TupleAcc) (first : TupleAcc) : TupleAcc :=
  match acc with
  | .val t => .val t
  | _ => first

/-- The loop of `_rewrite_to_tuple`.  A member that is not a `Tuple`
generic, a `Tuple[V, ...]` (whose arguments contain `Ellipsis`, which
never equals the running value type) or a fixed-arity tuple with a
mismatching element makes the whole rewrite return `None`; the bare
unparametrized `Tuple` has `__args__ = None`, so subscripting or
iterating it raises a `TypeError` that nothing in `rewrite_Union`
catches (`Except.error`).  At the end of the loop
`Tuple[value_type, ...]` is built; the degenerate results from an
empty argument list (unreachable: a union has at least two members)
are folded into the failure case resp. `Tuple[(), ...]`. -/
def rewriteToTupleLoop : TupleAcc → List Ty → Except Unit (Option Ty)
  | acc, [] =>
      match acc with
      | .val t => .ok (some (.tupleVar t))
      | .emptyTup => .ok (some (.tupleVar (.tuple [])))
      | .unset => .ok Option.none
  | acc, t :: ts =>
      match t with
      | .tuple [] =>
          match acc with
          | .val _ => .ok Option.none
          | _ => rewriteToTupleLoop .emptyTup ts
      | .tuple (e :: es) =>
          match accOr acc (.val e) with
          | .val v =>
              if (e :: es).all (fun x => x = v) then rewriteToTupleLoop (.val v) ts
              else .ok Option.none
          | _ => .ok Option.none
      | .tupleVar _ => .ok Option.none
      | .tupleAny => .error ()
      | _ => .ok Option.none

/-- Embedding of `RewriteLargeUnion._rewrite_to_tuple`. -/
def rewriteToTuple (ts : List Ty) : Except Unit (Option Ty) :=
  rewriteToTupleLoop .unset ts

/-- Python `issubclass(t, ancestor)` over union members, with the
laziness of `all(...)`: a `False` before a non-class member
short-circuits, while reaching a non-class member raises `TypeError`
(`Except.error`). -/
def allSubclassLazy : List Ty → ClassName → Except Unit Bool
  | [], _ => .ok true
  | t :: ts, anc =>
      match t with
      | .class_ c => if isSubclass c anc then allSubclassLazy ts anc else .ok false
      | _ => .error ()

/-- The `for ancestor in inspect.getmro(union.__args__[0])` loop: skip
`object`; return the first ancestor all members are subclasses of; a
`TypeError` from `issubclass` aborts the whole loop and yields `Any`;
exhausting the method resolution order yields `Any`. -/
def ancestorLoop (ts : List Ty) : List ClassName → Ty
  | [] => .any
  | anc :: rest =>
      if anc = .obj then ancestorLoop ts rest
      else
        match allSubclassLazy ts anc with
        | .ok true => .class_ anc
        | .ok false => ancestorLoop ts rest
        | .error _ => .any

/-- The common-ancestor fallback of `rewrite_Union`: `inspect.getmro`
of the first member (raising `TypeError` / `AttributeError` on a
non-class, which the surrounding `try` turns into `Any`), then the
ancestor loop. -/
def findAncestor (ts : List Ty) : Ty :=
  match ts with
  | [] => .any
  | t :: _ =>
      match t with
      | .class_ c => ancestorLoop ts (mro c)
      | _ => .any

/-- Embedding of `RewriteLargeUnion.rewrite_Union`: a union within the
length bound is returned unchanged; otherwise try the uniform-tuple
collapse (whose `TypeError` on a bare `Tuple` member propagates), then
the common-ancestor collapse, then `Any`. -/
def rewriteUnion (maxLen : Nat) (ts : List Ty) : Except Unit Ty :=
  if ts.length ≤ maxLen then .ok (.union ts)
  else
    match rewriteToTuple ts with
    | .error e => .error e
    | .ok (some t) => .ok t
    | .ok Option.none => .ok (findAncestor ts)

mutual

/-- Embedding of `RewriteLargeUnion.rewrite`: dispatch on the type
name; containers rebuild with recursively rewritten arguments (an
exception from a nested union propagates), unions go to
`rewrite_Union` (which does not recurse into members), everything
else is unchanged. -/
def rewrite (maxLen : Nat) : Ty → Except Unit Ty
  | .list t =>
      match rewrite maxLen t with
      | .error e => .error e
      | .ok t' => .ok (.list t')
  | .set t =>
      match rewrite maxLen t with
      | .error e => .error e
      | .ok t' => .ok (.set t')
  | .dict k v =>
      match rewrite maxLen k with
      | .error e => .error e
      | .ok k' =>
          match rewrite maxLen v with
          | .error e => .error e
          | .ok v' => .ok (.dict k' v')
  | .tuple ts =>
      match rewriteList maxLen ts with
      | .error e => .error e
      | .ok ts' => .ok (.tuple ts')
  | .tupleVar t =>
      match rewrite maxLen t with
      | .error e => .error e
      | .ok t' => .ok (.tupleVar t')
  | .union ts => rewriteUnion maxLen ts
  | t => .ok t

/-- Pointwise rewriting of container arguments. -/
def rewriteList (maxLen : Nat) : List Ty → Except Unit (List Ty)
  | [] => .ok []
  | t :: ts =>
      match rewrite maxLen t with
      | .error e => .error e
      | .ok t' =>
          match rewriteList maxLen ts with
          | .error e => .error e
          | .ok ts' => .ok (t' :: ts')

end

end RewriteLargeUnion

/-- All members are non-empty fixed-arity tuples all of whose elements
are `V` (the uniform-tuple condition of the large-union collapse). -/
def UniformTuples (ts : List Ty) (V : Ty) : Prop :=
  ts ≠ [] ∧ ∀ t ∈ ts, ∃ es, t = Ty.tuple es ∧ es ≠ [] ∧ ∀ e ∈ es, e = V

/-- `anc` is a class other than `object` of which every union member is
a subclass (so all members are classes). -/
def CommonAncestor (ts : List Ty) (anc : ClassName) : Prop :=
  anc ≠ .obj ∧ ∀ t ∈ ts, ∃ c, t = Ty.class_ c ∧ isSubclass c anc

/-- C5 counterexample input: `Union[Set[Any], int]` contains no
concrete container of the same kind as the empty `Set[Any]`, yet the
rewriter still removes `Set[Any]` and collapses the union to `int`. -/
theorem removeEmptyContainers_counterexample :
    RemoveEmptyContainers.rewrite (.union [.set .any, .class_ .intC]) = .class_ .intC ∧
    RemoveEmptyContainers.rewrite (.union [.set .any, .class_ .intC]) ≠
      .union [.set .any, .class_ .intC] := by
  exact ⟨rfl, by decide⟩

/-- C5 (amended): within a union, `RemoveEmptyContainers` removes every
empty container type (one whose arguments are all `Any`)
unconditionally — whether or not a concrete container of the same kind
is present — and rebuilds the union from the recursively rewritten
surviving members; only when every member is an empty container is the
original union returned unchanged. -/
theorem removeEmptyContainers_union (ts : List Ty) :
    (ts.all RemoveEmptyContainers.isEmpty = true →
        RemoveEmptyContainers.rewrite (.union ts) = .union ts) ∧
    (¬ ts.all RemoveEmptyContainers.isEmpty = true →
        RemoveEmptyContainers.rewrite (.union ts) =
          pyUnion ((ts.filter (fun t => !RemoveEmptyContainers.isEmpty t)).map
            RemoveEmptyContainers.rewrite)) := by
  have hrw : RemoveEmptyContainers.rewrite (.union ts) =
      match RemoveEmptyContainers.unionElems ts with
      | [] => .union ts
      | elems => pyUnion elems := rfl
  constructor
  · intro hall
    have hfil : ts.filter (fun t => !RemoveEmptyContainers.isEmpty t) = [] := by
      simp only [List.filter_eq_nil_iff]
      intro t ht
      simp [List.all_eq_true.mp hall t ht]
    rw [hrw, RemoveEmptyContainers.unionElems_eq_filter_map, hfil]
    rfl
  · intro hnall
    have hfil : ts.filter (fun t => !RemoveEmptyContainers.isEmpty t) ≠ [] := by
      intro hfil
      apply hnall
      rw [List.all_eq_true]
      intro t ht
      by_contra hem
      have := List.filter_eq_nil_iff.mp hfil t ht
      simp_all
    rw [hrw, RemoveEmptyContainers.unionElems_eq_filter_map]
    cases hc : (ts.filter (fun t => !RemoveEmptyContainers.isEmpty t)).map
        RemoveEmptyContainers.rewrite with
    | nil => simp at hc; simp_all
    | cons e es => rfl

/-- Witness for C5: one union with a surviving member, one union of
only empty containers. -/
theorem removeEmptyContainers_union_witness :
    RemoveEmptyContainers.rewrite (.union [.set .any, .set (.class_ .intC)]) =
      pyUnion (([Ty.set .any, Ty.set (.class_ .intC)].filter
        (fun t => !RemoveEmptyContainers.isEmpty t)).map RemoveEmptyContainers.rewrite) ∧
    RemoveEmptyContainers.rewrite (.union [.list .any, .set .any]) =
      .union [.list .any, .set .any] :=
  ⟨(removeEmptyContainers_union _).2 (by decide),
    (removeEmptyContainers_union _).1 (by decide)⟩

/-- Soundness of the lazy `issubclass` scan: an `ok true` answer means
every member is a class and a subclass of the candidate ancestor. -/
theorem allSubclassLazy_sound (anc : ClassName) :
    ∀ ts : List Ty, RewriteLargeUnion.allSubclassLazy ts anc = .ok true →
      ∀ t ∈ ts, ∃ c, t = Ty.class_ c ∧ isSubclass c anc := by
  intro ts
  induction ts with
  | nil => intro _ t ht; cases ht
  | cons t₀ ts ih =>
    intro h t ht
    cases t₀
    case class_ c =>
      by_cases hc : isSubclass c anc
      · rw [show RewriteLargeUnion.allSubclassLazy (Ty.class_ c :: ts) anc =
            RewriteLargeUnion.allSubclassLazy ts anc from by
          simp [RewriteLargeUnion.allSubclassLazy, hc]] at h
        rcases List.mem_cons.mp ht with rfl | hmem
        · exact ⟨c, rfl, hc⟩
        · exact ih h t hmem
      · simp [RewriteLargeUnion.allSubclassLazy, hc] at h
    all_goals simp [RewriteLargeUnion.allSubclassLazy] at h

/-- With only class members the lazy `issubclass` scan cannot raise. -/
theorem allSubclassLazy_no_error (anc : ClassName) :
    ∀ ts : List Ty, (∀ t ∈ ts, ∃ c, t = Ty.class_ c) →
      ∃ b, RewriteLargeUnion.allSubclassLazy ts anc = .ok b := by
  intro ts
  induction ts with
  | nil => exact fun _ => ⟨true, rfl⟩
  | cons t₀ ts ih =>
    intro h
    obtain ⟨c, rfl⟩ := h t₀ (List.mem_cons_self t₀ ts)
    by_cases hc : isSubclass c anc
    · obtain ⟨b, hb⟩ := ih fun t ht => h t (List.mem_cons_of_mem _ ht)
      exact ⟨b, by simp [RewriteLargeUnion.allSubclassLazy, hc, hb]⟩
    · exact ⟨false, by simp [RewriteLargeUnion.allSubclassLazy, hc]⟩

/-- Completeness of the lazy `issubclass` scan. -/
theorem allSubclassLazy_complete (anc : ClassName) :
    ∀ ts : List Ty, (∀ t ∈ ts, ∃ c, t = Ty.class_ c ∧ isSubclass c anc) →
      RewriteLargeUnion.allSubclassLazy ts anc = .ok true := by
  intro ts
  induction ts with
  | nil => exact fun _ => rfl
  | cons t₀ ts ih =>
    intro h
    obtain ⟨c, rfl, hc⟩ := h t₀ (List.mem_cons_self t₀ ts)
    simp [RewriteLargeUnion.allSubclassLazy, hc]
    exact ih fun t ht => h t (List.mem_cons_of_mem _ ht)

/-- Soundness of the ancestor loop: a class answer is a non-`object`
ancestor of every member. -/
theorem ancestorLoop_sound (ts : List Ty) :
    ∀ (l : List ClassName) (a : ClassName),
      RewriteLargeUnion.ancestorLoop ts l = .class_ a →
      a ≠ .obj ∧ RewriteLargeUnion.allSubclassLazy ts a = .ok true := by
  intro l
  induction l with
  | nil => intro a h; simp [RewriteLargeUnion.ancestorLoop] at h
  | cons anc rest ih =>
    intro a h
    by_cases hobj : anc = .obj
    · simp [RewriteLargeUnion.ancestorLoop, hobj] at h
      exact ih a h
    · simp [RewriteLargeUnion.ancestorLoop, hobj] at h
      cases hsub : RewriteLargeUnion.allSubclassLazy ts anc with
      | ok b =>
        cases b with
        | true =>
          rw [hsub] at h
          simp at h
          exact h ▸ ⟨hobj, hsub⟩
        | false =>
          rw [hsub] at h
          simp at h
          exact ih a h
      | error e =>
        rw [hsub] at h
        simp at h

/-- The ancestor loop yields either `Any` or a class. -/
theorem ancestorLoop_shape (ts : List Ty) :
    ∀ l : List ClassName,
      RewriteLargeUnion.ancestorLoop ts l = .any ∨
      ∃ a, RewriteLargeUnion.ancestorLoop ts l = .class_ a := by
  intro l
  induction l with
  | nil => exact Or.inl rfl
  | cons anc rest ih =>
    by_cases hobj : anc = .obj
    · simpa [RewriteLargeUnion.ancestorLoop, hobj] using ih
    · simp only [RewriteLargeUnion.ancestorLoop, if_neg hobj]
      cases RewriteLargeUnion.allSubclassLazy ts anc with
      | ok b =>
        cases b with
        | true => exact Or.inr ⟨anc, rfl⟩
        | false => exact ih
      | error e => exact Or.inl rfl

/-- When all members are classes and a suitable ancestor occurs in the
scanned method resolution order, the ancestor loop finds a class. -/
theorem ancestorLoop_finds (ts : List Ty) (anc : ClassName)
    (hcl : ∀ t ∈ ts, ∃ c, t = Ty.class_ c) (hobj : anc ≠ .obj)
    (hall : RewriteLargeUnion.allSubclassLazy ts anc = .ok true) :
    ∀ l : List ClassName, anc ∈ l →
      ∃ a, RewriteLargeUnion.ancestorLoop ts l = .class_ a := by
  intro l
  induction l with
  | nil => intro h; cases h
  | cons h₀ rest ih =>
    intro hmem
    by_cases hobj₀ : h₀ = .obj
    · rcases List.mem_cons.mp hmem with rfl | hmem'
      · exact absurd hobj₀ hobj
      · simpa [RewriteLargeUnion.ancestorLoop, hobj₀] using ih hmem'
    · simp only [RewriteLargeUnion.ancestorLoop, if_neg hobj₀]
      cases hsub : RewriteLargeUnion.allSubclassLazy ts h₀ with
      | ok b =>
        cases b with
        | true => exact ⟨h₀, rfl⟩
        | false =>
          rcases List.mem_cons.mp hmem with rfl | hmem'
          · rw [hall] at hsub
            cases hsub
          · exact ih hmem'
      | error e =>
        obtain ⟨b, hb⟩ := allSubclassLazy_no_error h₀ ts hcl
        rw [hb] at hsub
        cases hsub

/-- The uniform-tuple loop succeeds from an assigned value type when
every remaining member is a non-empty tuple of that type. -/
theorem rewriteToTupleLoop_uniform (V : Ty) :
    ∀ ts : List Ty,
      (∀ t ∈ ts, ∃ es, t = Ty.tuple es ∧ es ≠ [] ∧ ∀ e ∈ es, e = V) →
      RewriteLargeUnion.rewriteToTupleLoop (.val V) ts = .ok (some (.tupleVar V)) := by
  intro ts
  induction ts with
  | nil => exact fun _ => rfl
  | cons t₀ ts ih =>
    intro h
    obtain ⟨es, rfl, hne, hev⟩ := h t₀ (List.mem_cons_self t₀ ts)
    cases es with
    | nil => exact absurd rfl hne
    | cons e es =>
      have he : e = V := hev e (List.mem_cons_self e es)
      subst he
      simp only [RewriteLargeUnion.rewriteToTupleLoop, RewriteLargeUnion.accOr]
      rw [if_pos]
      · exact ih fun t ht => h t (List.mem_cons_of_mem _ ht)
      · simp only [List.all_eq_true, decide_eq_true_eq]
        exact hev

/-- C6 counterexample input: `Union[Tuple[int], Tuple, str]` with
threshold 2 exceeds the threshold and is neither a uniform tuple union
nor a union with a common ancestor, so the claim predicts `Any` — but
`_rewrite_to_tuple` subscripts and iterates the bare `Tuple`'s
`__args__` (which is `None`), raising a `TypeError` that no handler in
`rewrite_Union` catches. -/
theorem rewriteLargeUnion_counterexample :
    RewriteLargeUnion.rewrite 2
      (.union [.tuple [.class_ .intC], .tupleAny, .class_ .strC]) = .error () := rfl

/-- C6 (amended): for every union whose member count exceeds the
threshold (default 5), `RewriteLargeUnion` returns the variable-length
tuple `Tuple[V, ...]` when all members are non-empty fixed-arity tuples
of elements `V`; otherwise, when all members share a class ancestor
other than `object`, it returns such a common ancestor; otherwise
(whenever the uniform-tuple scan returned `None` rather than raising —
it raises a `TypeError` on a bare unparametrized `Tuple` member reached
after a uniform prefix) it returns `Any`.  A union with at most the
threshold number of members is returned unchanged.  In the diamond
hierarchy `A ← B ← {D, E}`, `A ← C ← {F, G}` with threshold 2, the
union of `D, E, F, G` collapses to `A` and the union of `B, D, E`
collapses to `B`. -/
theorem rewriteLargeUnion_spec (maxLen : Nat) (ts : List Ty) (V : Ty) :
    RewriteLargeUnion.defaultMaxUnionLen = 5 ∧
    (ts.length ≤ maxLen →
      RewriteLargeUnion.rewrite maxLen (.union ts) = .ok (.union ts)) ∧
    (maxLen < ts.length → UniformTuples ts V →
      RewriteLargeUnion.rewrite maxLen (.union ts) = .ok (.tupleVar V)) ∧
    (maxLen < ts.length → (∃ anc, CommonAncestor ts anc) →
      ∃ anc, CommonAncestor ts anc ∧
        RewriteLargeUnion.rewrite maxLen (.union ts) = .ok (.class_ anc)) ∧
    (maxLen < ts.length → RewriteLargeUnion.rewriteToTuple ts = .ok Option.none →
      (¬ ∃ anc, CommonAncestor ts anc) →
      RewriteLargeUnion.rewrite maxLen (.union ts) = .ok .any) ∧
    RewriteLargeUnion.rewrite 2
      (.union [.class_ .D, .class_ .E, .class_ .F, .class_ .G]) = .ok (.class_ .A) ∧
    RewriteLargeUnion.rewrite 2
      (.union [.class_ .B, .class_ .D, .class_ .E]) = .ok (.class_ .B) := by
  have hdisp : ∀ us : List Ty, RewriteLargeUnion.rewrite maxLen (.union us) =
      RewriteLargeUnion.rewriteUnion maxLen us := fun _ => rfl
  refine ⟨rfl, ?_, ?_, ?_, ?_, rfl, rfl⟩
  · intro hle
    rw [hdisp, RewriteLargeUnion.rewriteUnion, if_pos hle]
  · intro hgt ⟨hne, huni⟩
    rw [hdisp, RewriteLargeUnion.rewriteUnion, if_neg (by omega)]
    cases ts with
    | nil => exact absurd rfl hne
    | cons t₀ ts' =>
      obtain ⟨es, rfl, hne', hev⟩ := huni t₀ (List.mem_cons_self t₀ ts')
      cases es with
      | nil => exact absurd rfl hne'
      | cons e es' =>
        have he : e = V := hev e (List.mem_cons_self e es')
        subst he
        have hred : RewriteLargeUnion.rewriteToTuple (Ty.tuple (e :: es') :: ts') =
            .ok (some (.tupleVar e)) := by
          simp only [RewriteLargeUnion.rewriteToTuple,
            RewriteLargeUnion.rewriteToTupleLoop, RewriteLargeUnion.accOr]
          rw [if_pos]
          · exact rewriteToTupleLoop_uniform e ts'
              fun t ht => huni t (List.mem_cons_of_mem _ ht)
          · simp only [List.all_eq_true, decide_eq_true_eq]
            exact hev
        rw [hred]
  · intro hgt ⟨anc, hobj, hsub⟩
    rw [hdisp, RewriteLargeUnion.rewriteUnion, if_neg (by omega)]
    have hcl : ∀ t ∈ ts, ∃ c, t = Ty.class_ c := by
      intro t ht
      obtain ⟨c, hc, _⟩ := hsub t ht
      exact ⟨c, hc⟩
    cases ts with
    | nil => simp at hgt
    | cons t₀ ts' =>
      obtain ⟨c₀, rfl⟩ := hcl t₀ (List.mem_cons_self t₀ ts')
      have htup : RewriteLargeUnion.rewriteToTuple (Ty.class_ c₀ :: ts') =
          .ok Option.none := rfl
      rw [htup]
      have hmem : anc ∈ mro c₀ := by
        obtain ⟨c, hc, hcs⟩ := hsub (Ty.class_ c₀) (List.mem_cons_self _ ts')
        cases hc
        simpa [isSubclass] using hcs
      obtain ⟨a, ha⟩ := ancestorLoop_finds (Ty.class_ c₀ :: ts') anc hcl hobj
        (allSubclassLazy_complete anc _ hsub) (mro c₀) hmem
      have hsound := ancestorLoop_sound (Ty.class_ c₀ :: ts') (mro c₀) a ha
      refine ⟨a, ⟨hsound.1, allSubclassLazy_sound a _ hsound.2⟩, ?_⟩
      simp only [RewriteLargeUnion.findAncestor]
      rw [ha]
  · intro hgt htup hnoanc
    rw [hdisp, RewriteLargeUnion.rewriteUnion, if_neg (by omega)]
    rw [htup]
    cases ts with
    | nil => simp at hgt
    | cons t₀ ts' =>
      cases ht₀ : t₀ with
      | class_ c₀ =>
        subst ht₀
        simp only [RewriteLargeUnion.findAncestor]
        rcases ancestorLoop_shape (Ty.class_ c₀ :: ts') (mro c₀) with hsh | ⟨a, hsh⟩
        · rw [hsh]
        · exfalso
          have hsound := ancestorLoop_sound (Ty.class_ c₀ :: ts') (mro c₀) a hsh
          exact hnoanc ⟨a, hsound.1, allSubclassLazy_sound a _ hsound.2⟩
      | _ =>
        subst ht₀
        rfl

/-- Witness for C6: the small-union, uniform-tuple and diamond cases
at concrete inputs. -/
theorem rewriteLargeUnion_spec_witness :
    (RewriteLargeUnion.rewrite 5 (.union [.class_ .intC, .class_ .strC]) =
      .ok (.union [.class_ .intC, .class_ .strC])) ∧
    (RewriteLargeUnion.rewrite 2
      (.union [.tuple [.class_ .intC, .class_ .intC],
               .tuple [.class_ .intC, .class_ .intC, .class_ .intC],
               .tuple [.class_ .intC]]) = .ok (.tupleVar (.class_ .intC))) := by
  constructor
  · exact (rewriteLargeUnion_spec 5 [.class_ .intC, .class_ .strC] .any).2.1 (by decide)
  · refine (rewriteLargeUnion_spec 2 _ (.class_ .intC)).2.2.1 (by decide) ⟨by decide, ?_⟩
    intro t ht
    simp at ht
    rcases ht with rfl | rfl | rfl
    · exact ⟨_, rfl, by decide, by decide⟩
    · exact ⟨_, rfl, by decide, by decide⟩
    · exact ⟨_, rfl, by decide, by decide⟩

/-- C2: with the code base's (total) `get_type` as typer, finalizing a
frame that holds an in-flight trace distinguishes the two exit reasons:
a normal return (`RETURN_VALUE` last, which includes fall-through and
an explicit `return None`) logs the trace with `return_type` set to the
observed type of the returned value — `some` of the observed type,
never absent, and `NoneType` when the value is `None` — while an exit
due to an unhandled exception (neither `RETURN_VALUE` nor `YIELD_VALUE`
last) logs the trace with `return_type` still absent; in both cases the
in-flight record is removed from the per-frame table and appended to
the logger's output. -/
theorem handle_return_normal_vs_exception
    (resolver : Frame → Except String (Option FuncId))
    (codeFilter : Option (Nat → Bool)) (sampleRate : Option Nat)
    (st : TracerState) (f : Frame) (arg : PyVal) (tr : CallTrace)
    (hin : st.traces.lookup f.fid = some tr)
    (hflight : tr.return_type = Option.none) :
    (f.lastOp = .returnValue →
      CallTracer.handle_return ⟨resolver, stdTyper, codeFilter, sampleRate⟩ st f arg =
        .ok { st with
          traces := removeKey f.fid st.traces,
          logged := st.logged ++ [{ tr with return_type := some (get_type arg) }] }) ∧
    (f.lastOp = .other →
      CallTracer.handle_return ⟨resolver, stdTyper, codeFilter, sampleRate⟩ st f arg =
        .ok { st with
          traces := removeKey f.fid st.traces,
          logged := st.logged ++ [tr] } ∧
      tr.return_type = Option.none) ∧
    get_type PyVal.none = .class_ .noneTypeC := by
  refine ⟨?_, ?_, rfl⟩ <;> intro hop
  · simp [CallTracer.handle_return, stdTyper, hin, hop]
  · simp [CallTracer.handle_return, stdTyper, hin, hop]
    exact hflight

/-- Witness for C2: one in-flight trace; a normal return of `None`. -/
theorem handle_return_normal_vs_exception_witness :
    ((⟨0, 0, "f", .returnValue, [], []⟩ : Frame).lastOp = .returnValue →
      CallTracer.handle_return
          ⟨fun _ => .ok Option.none, stdTyper, Option.none, Option.none⟩
          ⟨[(0, ⟨⟨"m", "f"⟩, [], Option.none, Option.none⟩)], [], [], 0⟩
          ⟨0, 0, "f", .returnValue, [], []⟩ PyVal.none =
        .ok { (⟨[(0, ⟨⟨"m", "f"⟩, [], Option.none, Option.none⟩)], [], [], 0⟩ : TracerState) with
          traces := removeKey 0 [(0, ⟨⟨"m", "f"⟩, [], Option.none, Option.none⟩)],
          logged := [] ++ [{ (⟨⟨"m", "f"⟩, [], Option.none, Option.none⟩ : CallTrace) with
            return_type := some (get_type PyVal.none) }] }) ∧
    ((⟨0, 0, "f", .returnValue, [], []⟩ : Frame).lastOp = .other →
      CallTracer.handle_return
          ⟨fun _ => .ok Option.none, stdTyper, Option.none, Option.none⟩
          ⟨[(0, ⟨⟨"m", "f"⟩, [], Option.none, Option.none⟩)], [], [], 0⟩
          ⟨0, 0, "f", .returnValue, [], []⟩ PyVal.none =
        .ok { (⟨[(0, ⟨⟨"m", "f"⟩, [], Option.none, Option.none⟩)], [], [], 0⟩ : TracerState) with
          traces := removeKey 0 [(0, ⟨⟨"m", "f"⟩, [], Option.none, Option.none⟩)],
          logged := [] ++ [⟨⟨"m", "f"⟩, [], Option.none, Option.none⟩] } ∧
      (⟨⟨"m", "f"⟩, [], Option.none, Option.none⟩ : CallTrace).return_type = Option.none) ∧
    get_type PyVal.none = .class_ .noneTypeC :=
  handle_return_normal_vs_exception (fun _ => .ok Option.none) Option.none Option.none
    _ _ PyVal.none _ (by rfl) (by rfl)

/-- C3: `trace_calls` restores the previously installed profile hook
and calls `logger.flush()` exactly once at scope exit — the flush
counter after the scope is the body's plus one — and this holds for
every body, in particular both for a body that returns normally and
for one that raises (the outcome is passed through unchanged). -/
theorem trace_calls_flushes_once_and_restores
    (st : SysState) (hook : Nat) (body : SysState → BodyOutcome × SysState) :
    (trace_calls st hook body).2.profileHook = st.profileHook ∧
    (trace_calls st hook body).2.flushes =
      (body { st with profileHook := some hook }).2.flushes + 1 ∧
    (trace_calls st hook body).1 = (body { st with profileHook := some hook }).1 :=
  ⟨rfl, rfl, rfl⟩

/-- An error escaping the dispatch of `CallTracer.__call__` carries a
state whose in-flight traces and logged traces are those of the input
state (only the resolution cache may have been filled). -/
theorem dispatch_error_state (env : TracerEnv) (st : TracerState) (f : Frame)
    (ev : TraceEvent) (e : String) (stAt : TracerState)
    (h : CallTracer.dispatch env st f ev = .error (e, stAt)) :
    stAt.traces = st.traces ∧ stAt.logged = st.logged := by
  cases ev with
  | call draw =>
    simp only [CallTracer.dispatch, CallTracer.handle_call] at h
    split at h
    · cases h
    · split at h
      · rename_i hres
        simp only [getFuncCached] at hres
        split at hres
        · cases hres
        · split at hres
          · cases hres
            cases h
            exact ⟨rfl, rfl⟩
          · cases hres
      · rename_i fn st₁ hres
        simp only [getFuncCached] at hres
        split at hres
        · cases hres
          split at h
          · cases h
          · split at h
            · cases h
            · split at h
              · cases h
                exact ⟨rfl, rfl⟩
              · cases h
        · split at hres
          · cases hres
          · cases hres
            split at h
            · cases h
            · split at h
              · cases h
              · split at h
                · cases h
                  exact ⟨rfl, rfl⟩
                · cases h
  | ret arg =>
    simp only [CallTracer.dispatch, CallTracer.handle_return] at h
    split at h
    · cases h
      exact ⟨rfl, rfl⟩
    · split at h
      · cases h
      · split at h
        · cases h
        · cases h
  | cEvent name => cases h

/-- C4: the profile hook never raises into the traced program — for
every environment (in particular, for resolvers and typers that raise
during function resolution or argument / return / yield type
extraction), every state, frame and event, `CallTracer.__call__`
returns a state rather than propagating an exception; and whenever the
dispatched handler did raise, the resulting state has the same
in-flight traces and the same logged traces as before (the failed call
is simply not traced), with the exception counted as a logged
"Failed collecting trace" error. -/
theorem tracer_call_never_raises (env : TracerEnv) (st : TracerState) (f : Frame)
    (ev : TraceEvent) :
    ∃ st', CallTracer.call env st f ev = .ok st' ∧
      (∀ e stAt, CallTracer.dispatch env st f ev = .error (e, stAt) →
        st'.traces = st.traces ∧ st'.logged = st.logged) := by
  unfold CallTracer.call
  split
  · exact ⟨st, rfl, fun e stAt _ => ⟨rfl, rfl⟩⟩
  · cases hdisp : CallTracer.dispatch env st f ev with
    | ok st' =>
      refine ⟨st', rfl, ?_⟩
      intro e stAt h
      simp at h
    | error p =>
      obtain ⟨e, stAt⟩ := p
      have h := dispatch_error_state env st f ev e stAt hdisp
      refine ⟨{ stAt with errors := stAt.errors + 1 }, rfl, ?_⟩
      intro e' stAt' h'
      exact ⟨h.1, h.2⟩

/-- C10: starting from a fresh `CallTraceStoreLogger`, after any
sequence of `log` / `flush` operations no trace from module `__main__`
is in the buffer or in any batch the logger passed to `store.add`; the
traces accumulated in the store plus the ones still buffered are
exactly the non-`__main__` traces logged so far, each appearing once
(so a buffered trace reaches `store.add` in at most one flush); and
`flush` always leaves the buffer empty. -/
theorem storeLogger_main_invariant (ops : List LoggerOp) :
    (∀ t ∈ (runLogger initLogger ops).buffer, t.func.module ≠ "__main__") ∧
    (∀ b ∈ (runLogger initLogger ops).store, ∀ t ∈ b, t.func.module ≠ "__main__") ∧
    (runLogger initLogger ops).store.flatten ++ (runLogger initLogger ops).buffer =
      nonMainTraces ops ∧
    ∀ s : StoreLoggerState, (storeFlush s).buffer = [] := by
  have main : ∀ (ops : List LoggerOp) (st : StoreLoggerState),
      (∀ t ∈ st.buffer, t.func.module ≠ "__main__") →
      (∀ b ∈ st.store, ∀ t ∈ b, t.func.module ≠ "__main__") →
      (∀ t ∈ (runLogger st ops).buffer, t.func.module ≠ "__main__") ∧
      (∀ b ∈ (runLogger st ops).store, ∀ t ∈ b, t.func.module ≠ "__main__") ∧
      (runLogger st ops).store.flatten ++ (runLogger st ops).buffer =
        (st.store.flatten ++ st.buffer) ++ nonMainTraces ops := by
    intro ops
    induction ops with
    | nil =>
      intro st hb hs
      exact ⟨hb, hs, by simp [runLogger, nonMainTraces]⟩
    | cons op ops ih =>
      intro st hb hs
      cases op with
      | log t =>
        by_cases hmod : t.func.module ≠ "__main__"
        · have step := ih (storeLog st t)
            (by
              intro u hu
              simp [storeLog, hmod] at hu
              rcases hu with hu | hu
              · exact hb u hu
              · exact hu ▸ hmod)
            (by
              intro b hbmem
              simp [storeLog, hmod] at hbmem
              exact hs b hbmem)
          refine ⟨step.1, step.2.1, ?_⟩
          rw [show runLogger st (.log t :: ops) = runLogger (storeLog st t) ops from rfl,
            step.2.2]
          simp [storeLog, hmod, nonMainTraces, List.filterMap_cons]
        · have step := ih (storeLog st t)
            (by
              intro u hu
              simp [storeLog, hmod] at hu
              exact hb u hu)
            (by
              intro b hbmem
              simp [storeLog, hmod] at hbmem
              exact hs b hbmem)
          refine ⟨step.1, step.2.1, ?_⟩
          rw [show runLogger st (.log t :: ops) = runLogger (storeLog st t) ops from rfl,
            step.2.2]
          simp [storeLog, hmod, nonMainTraces, List.filterMap_cons]
      | flush =>
        have step := ih (storeFlush st)
          (by intro u hu; simp [storeFlush] at hu)
          (by
            intro b hbmem
            simp [storeFlush] at hbmem
            rcases hbmem with hbmem | hbmem
            · exact hs b hbmem
            · intro t ht
              exact hb t (hbmem ▸ ht))
        refine ⟨step.1, step.2.1, ?_⟩
        rw [show runLogger st (.flush :: ops) = runLogger (storeFlush st) ops from rfl,
          step.2.2]
        simp [storeFlush, nonMainTraces, List.filterMap_cons]
  have h := main ops initLogger (by intro t ht; cases ht) (by intro b hbm; cases hbm)
  refine ⟨h.1, h.2.1, ?_, fun s => rfl⟩
  rw [h.2.2]
  simp [initLogger]

/-- Folding elements into a set is folding over the list of present
values. -/
theorem collectPresent_eq_filterMap (f : CallTrace → Option Ty) (traces : List CallTrace) :
    collectPresent f traces = setOfList (traces.filterMap f) := by
  have aux : ∀ (ts : List CallTrace) (acc : List Ty),
      ts.foldl
        (fun acc tr =>
          match f tr with
          | some t => addUnique acc t
          | Option.none => acc)
        acc = (ts.filterMap f).foldl addUnique acc := by
    intro ts
    induction ts with
    | nil => intro acc; rfl
    | cons tr ts ih =>
      intro acc
      cases hf : f tr <;> simp [List.filterMap_cons, hf, ih]
  exact aux traces []

/-- A set built from a non-empty list is non-empty. -/
theorem setOfList_ne_nil {l : List Ty} (h : l ≠ []) : setOfList l ≠ [] := by
  have aux : ∀ (xs : List Ty) (acc : List Ty), acc ≠ [] →
      xs.foldl addUnique acc ≠ [] := by
    intro xs
    induction xs with
    | nil => intro acc h; exact h
    | cons x xs ih =>
      intro acc hacc
      apply ih
      simp only [addUnique]
      split
      · exact hacc
      · simp
  cases l with
  | nil => exact absurd rfl h
  | cons x xs =>
    show (x :: xs).foldl addUnique [] ≠ []
    rw [List.foldl_cons]
    exact aux xs (addUnique [] x) (by simp [addUnique])

/-- C7: in `shrink_traced_types`, call records with an absent return
type contribute nothing to the return type — the result is the shrink
of the set of present return types only, and it is absent (`none`)
exactly when no record in the group has a return type; the yield type
is computed the same way from the records that yielded. -/
theorem shrink_traced_types_absent (traces : List CallTrace) (n : Nat) :
    ((shrink_traced_types traces n).2.1 =
      if (traces.filterMap fun tr => tr.return_type) = [] then Option.none
      else some (Sized.shrink_types
        (setOfList (traces.filterMap fun tr => tr.return_type)) n)) ∧
    ((shrink_traced_types traces n).2.1 = Option.none ↔
      ∀ tr ∈ traces, tr.return_type = Option.none) ∧
    ((shrink_traced_types traces n).2.2 =
      if (traces.filterMap fun tr => tr.yield_type) = [] then Option.none
      else some (Sized.shrink_types
        (setOfList (traces.filterMap fun tr => tr.yield_type)) n)) ∧
    ((shrink_traced_types traces n).2.2 = Option.none ↔
      ∀ tr ∈ traces, tr.yield_type = Option.none) := by
  have hr := collectPresent_eq_filterMap (fun tr => tr.return_type) traces
  have hy := collectPresent_eq_filterMap (fun tr => tr.yield_type) traces
  have part : ∀ f : CallTrace → Option Ty,
      collectPresent f traces = setOfList (traces.filterMap f) →
      ((if (collectPresent f traces).isEmpty then Option.none
        else some (Sized.shrink_types (collectPresent f traces) n)) =
        if (traces.filterMap f) = [] then Option.none
        else some (Sized.shrink_types (setOfList (traces.filterMap f)) n)) ∧
      ((if (collectPresent f traces).isEmpty then Option.none
        else some (Sized.shrink_types (collectPresent f traces) n)) = Option.none ↔
        ∀ tr ∈ traces, f tr = Option.none) := by
    intro f hf
    by_cases hnil : (traces.filterMap f) = []
    · constructor
      · simp [hf, hnil, setOfList]
      · simp [hf, hnil, setOfList]
        intro tr htr
        have := List.filterMap_eq_nil_iff.mp hnil tr htr
        exact this
    · have hne : setOfList (traces.filterMap f) ≠ [] := setOfList_ne_nil hnil
      constructor
      · simp [hf, hnil, List.isEmpty_iff, hne]
      · simp [hf, List.isEmpty_iff, hne]
        obtain ⟨t, ht⟩ := List.exists_mem_of_ne_nil _ hnil
        obtain ⟨tr, htr, hftr⟩ := List.mem_filterMap.mp ht
        exact ⟨tr, htr, by simp [hftr]⟩
  have pr := part (fun tr => tr.return_type) hr
  have py := part (fun tr => tr.yield_type) hy
  exact ⟨pr.1, pr.2, py.1, py.2⟩

/-- One required field per dict item, its type computed with the same
budget. -/
theorem shapedFields_eq_map (es : List (PyVal × PyVal)) (n : Nat) :
    Sized.shapedFields es n =
      es.map fun p => (Sized.strOf p.1, Sized.get_type p.2 n, true) := by
  induction es with
  | nil => rfl
  | cons e es ih =>
    obtain ⟨k, v⟩ := e
    simp [Sized.shapedFields, ih]

/-- C1 (spec-modelled): for a dict value (whose entries model
`dict.items()`, so under `keysDistinct` their count is the number of
distinct keys) and a size budget `n`, the value typer returns the
generic mapping type of the shrunk key and value types when `n` is 0,
or some key is not a plain string, or the number of distinct keys
exceeds `n`; otherwise it returns a record-shape with one required
field per key whose type is computed recursively with the same
budget. -/
theorem sized_get_type_dict (es : List (PyVal × PyVal)) (n : Nat)
    (hwf : keysDistinct es = true) :
    ((n = 0 ∨ Sized.allStrKeys es = false ∨ n < es.length) →
      Sized.get_type (.dictV es) n =
        .dict (Sized.shrink_types (Sized.getTypeKeys es n) n)
          (Sized.shrink_types (Sized.getTypeVals es n) n)) ∧
    (¬ (n = 0 ∨ Sized.allStrKeys es = false ∨ n < es.length) →
      Sized.get_type (.dictV es) n =
        .shaped Sized.DUMMY_TYPED_DICT_NAME
          (es.map fun p => (Sized.strOf p.1, Sized.get_type p.2 n, true))) := by
  constructor
  · intro hcond
    have hguard : (n = 0 || (!Sized.allStrKeys es || n < es.length)) = true := by
      rcases hcond with h | h | h <;> simp [h]
    simp only [Sized.get_type]
    rw [if_pos (by simpa using hguard)]
  · intro hcond
    push_neg at hcond
    obtain ⟨h0, hstr, hlen⟩ := hcond
    have hguard : (n = 0 || (!Sized.allStrKeys es || n < es.length)) = false := by
      simp [h0, hlen]
      cases hs : Sized.allStrKeys es
      · exact absurd hs hstr
      · rfl
    simp only [Sized.get_type]
    rw [if_neg (by simp at hguard ⊢; tauto), shapedFields_eq_map]

/-- Flattening is the identity on a list with no union members. -/
theorem flattenUnions_of_no_union (ts : List Ty)
    (h : ∀ t ∈ ts, ∀ us, t ≠ .union us) : flattenUnions ts = ts := by
  induction ts with
  | nil => rfl
  | cons t ts ih =>
    have ht : ∀ us, t ≠ Ty.union us := h t (List.mem_cons_self t ts)
    have hts : flattenUnions ts = ts := ih fun u hu => h u (List.mem_cons_of_mem _ hu)
    cases t <;> simp_all [flattenUnions, List.flatMap_cons]

/-- On a well-formed union argument list — at least two members, none a
union, no duplicates — the `Union[...]` construction is the identity. -/
theorem pyUnion_of_wf (ts : List Ty) (hlen : 2 ≤ ts.length)
    (hnou : ∀ t ∈ ts, ∀ us, t ≠ .union us) (hnd : ts.Nodup) :
    pyUnion ts = .union ts := by
  unfold pyUnion
  rw [flattenUnions_of_no_union ts hnou, dedupFirst_eq_self hnd]
  cases ts with
  | nil => simp at hlen
  | cons a r =>
    cases r with
    | nil => simp at hlen
    | cons b r' => rfl

/-- Pointwise round-trips lift to element-type lists. -/
theorem roundtrip_list (ts : List Ty)
    (ih : ∀ t ∈ ts, ∃ d, type_to_dict t = .ok d ∧ type_from_dict d = .ok t ∧
      jsonToTd (tdToJson d) = .ok d) :
    ∃ ds, typeToDictList ts = .ok ds ∧ tdListFrom ds = .ok ts ∧
      jarrToTd (tdListToJson ds) = .ok ds ∧ ds.length = ts.length := by
  induction ts with
  | nil => exact ⟨[], rfl, rfl, rfl, rfl⟩
  | cons t ts ihts =>
    obtain ⟨d, h1, h2, h3⟩ := ih t (List.mem_cons_self t ts)
    obtain ⟨ds, g1, g2, g3, g4⟩ := ihts fun u hu => ih u (List.mem_cons_of_mem _ hu)
    refine ⟨d :: ds, ?_, ?_, ?_, by simp [g4]⟩
    · simp [typeToDictList, h1, g1]
    · simp [tdListFrom, h2, g2]
    · simp [tdListToJson, jarrToTd, h3, g3]

/-- Name resolution is the inverse of naming on the class universe. -/
theorem resolveName_class (c : ClassName) :
    resolveName c.module c.qualname = .ok (.cls c) := by
  cases c <;> rfl

/-- Every encodable type survives the dictionary encoding and the
canonical JSON layer. -/
theorem roundtrip_aux : ∀ t : Ty, Encodable t →
    ∃ d, type_to_dict t = .ok d ∧ type_from_dict d = .ok t ∧
      jsonToTd (tdToJson d) = .ok d := by
  intro t h
  induction h with
  | any => exact ⟨.basic "typing" "Any" Option.none, rfl, rfl, rfl⟩
  | class_ c =>
    refine ⟨.basic c.module c.qualname Option.none, rfl, ?_, rfl⟩
    simp [type_from_dict, resolveName_class c, bareForm]
  | callable => exact ⟨.basic "typing" "Callable" Option.none, rfl, rfl, rfl⟩
  | tupleAny => exact ⟨.basic "typing" "Tuple" Option.none, rfl, rfl, rfl⟩
  | typeOf _ ih =>
    obtain ⟨d, h1, h2, h3⟩ := ih
    refine ⟨.basic "typing" "Type" (some [d]), ?_, ?_, ?_⟩
    · simp [type_to_dict, h1]
    · simp [type_from_dict, resolveName, get_name_in_module, tdListFrom, h2,
        subscriptGeneric]
    · simp [tdToJson, jsonToTd, tdListToJson, jarrToTd, h3]
  | list _ ih =>
    obtain ⟨d, h1, h2, h3⟩ := ih
    refine ⟨.basic "typing" "List" (some [d]), ?_, ?_, ?_⟩
    · simp [type_to_dict, h1]
    · simp [type_from_dict, resolveName, get_name_in_module, tdListFrom, h2,
        subscriptGeneric]
    · simp [tdToJson, jsonToTd, tdListToJson, jarrToTd, h3]
  | set _ ih =>
    obtain ⟨d, h1, h2, h3⟩ := ih
    refine ⟨.basic "typing" "Set" (some [d]), ?_, ?_, ?_⟩
    · simp [type_to_dict, h1]
    · simp [type_from_dict, resolveName, get_name_in_module, tdListFrom, h2,
        subscriptGeneric]
    · simp [tdToJson, jsonToTd, tdListToJson, jarrToTd, h3]
  | iterator _ ih =>
    obtain ⟨d, h1, h2, h3⟩ := ih
    refine ⟨.basic "typing" "Iterator" (some [d]), ?_, ?_, ?_⟩
    · simp [type_to_dict, h1]
    · simp [type_from_dict, resolveName, get_name_in_module, tdListFrom, h2,
        subscriptGeneric]
    · simp [tdToJson, jsonToTd, tdListToJson, jarrToTd, h3]
  | dict _ _ ihk ihv =>
    obtain ⟨dk, hk1, hk2, hk3⟩ := ihk
    obtain ⟨dv, hv1, hv2, hv3⟩ := ihv
    refine ⟨.basic "typing" "Dict" (some [dk, dv]), ?_, ?_, ?_⟩
    · simp [type_to_dict, hk1, hv1]
    · simp [type_from_dict, resolveName, get_name_in_module, tdListFrom, hk2, hv2,
        subscriptGeneric]
    · simp [tdToJson, jsonToTd, tdListToJson, jarrToTd, hk3, hv3]
  | generator _ _ _ ihy ihs ihr =>
    obtain ⟨dy, hy1, hy2, hy3⟩ := ihy
    obtain ⟨ds, hs1, hs2, hs3⟩ := ihs
    obtain ⟨dr, hr1, hr2, hr3⟩ := ihr
    refine ⟨.basic "typing" "Generator" (some [dy, ds, dr]), ?_, ?_, ?_⟩
    · simp [type_to_dict, hy1, hs1, hr1]
    · simp [type_from_dict, resolveName, get_name_in_module, tdListFrom,
        hy2, hs2, hr2, subscriptGeneric]
    · simp [tdToJson, jsonToTd, tdListToJson, jarrToTd, hy3, hs3, hr3]
  | tuple _ ih =>
    rename_i ts _
    obtain ⟨ds, g1, g2, g3, _⟩ := roundtrip_list ts ih
    refine ⟨.basic "typing" "Tuple" (some ds), ?_, ?_, ?_⟩
    · simp [type_to_dict, g1]
    · simp [type_from_dict, resolveName, get_name_in_module, g2, subscriptGeneric]
    · simp [tdToJson, jsonToTd, g3]
  | union hlen _ hnou hnd ih =>
    rename_i ts _
    obtain ⟨ds, g1, g2, g3, g4⟩ := roundtrip_list ts ih
    have hds : ds.isEmpty = false := by
      cases ds with
      | nil => rw [g4.symm] at hlen; simp at hlen
      | cons d ds' => rfl
    refine ⟨.basic "typing" "Union" (some ds), ?_, ?_, ?_⟩
    · simp [type_to_dict, g1, hds]
    · have hsub : subscriptGeneric .unionG ts = .ok (.union ts) := by
        cases ts with
        | nil => simp at hlen
        | cons a r =>
          show (match (a :: r : List Ty) with
            | [] => Except.error "Cannot take a Union of no types"
            | ts => .ok (pyUnion ts)) = .ok (.union (a :: r))
          simp
          exact pyUnion_of_wf (a :: r) hlen hnou hnd
      simp [type_from_dict, resolveName, get_name_in_module, g2, hsub]
    · simp [tdToJson, jsonToTd, g3]

/-- C9: encoding round-trip — for every encodable type (a concrete
class of the universe, whose module and qualified name resolve back to
itself, the hidden builtins included; `Any`; a well-formed union; or a
parametrized generic with encodable arguments),
`type_from_dict(type_to_dict(t))` yields `t` back, and hence
`type_from_json(type_to_json(t))` yields `t` back as well. -/
theorem type_encoding_roundtrip (t : Ty) (h : Encodable t) :
    (match type_to_dict t with
     | .ok d => type_from_dict d
     | .error e => .error e) = .ok t ∧
    (match type_to_json t with
     | .ok j => type_from_json j
     | .error e => .error e) = .ok t := by
  obtain ⟨d, h1, h2, h3⟩ := roundtrip_aux t h
  refine ⟨?_, ?_⟩
  · rw [h1]
    exact h2
  · simp [type_to_json, h1, type_from_json, h3, h2]

/-- Witness for C9 at `Dict[str, Union[int, NoneType]]`. -/
theorem type_encoding_roundtrip_witness :
    (match type_to_dict (.dict (.class_ .strC)
        (.union [.class_ .intC, .class_ .noneTypeC])) with
     | .ok d => type_from_dict d
     | .error e => .error e) =
      .ok (.dict (.class_ .strC) (.union [.class_ .intC, .class_ .noneTypeC])) ∧
    (match type_to_json (.dict (.class_ .strC)
        (.union [.class_ .intC, .class_ .noneTypeC])) with
     | .ok j => type_from_json j
     | .error e => .error e) =
      .ok (.dict (.class_ .strC) (.union [.class_ .intC, .class_ .noneTypeC])) :=
  type_encoding_roundtrip _
    (.dict (.class_ .strC)
      (@Encodable.union [.class_ .intC, .class_ .noneTypeC] (by decide)
        (by
          intro t ht
          simp at ht
          rcases ht with rfl | rfl
          · exact .class_ _
          · exact .class_ _)
        (by
          intro t ht us
          simp at ht
          rcases ht with rfl | rfl <;> simp)
        (by decide)))

/-- Witness for C1: a two-key dict over budget 1 becomes a generic
mapping; a one-key string dict under budget 2 becomes a record-shape. -/
theorem sized_get_type_dict_witness :
    Sized.get_type (.dictV [(.str "x", .int 1), (.str "y", .int 2)]) 1 =
      .dict
        (Sized.shrink_types
          (Sized.getTypeKeys [(.str "x", .int 1), (.str "y", .int 2)] 1) 1)
        (Sized.shrink_types
          (Sized.getTypeVals [(.str "x", .int 1), (.str "y", .int 2)] 1) 1) ∧
    Sized.get_type (.dictV [(.str "x", .int 1)]) 2 =
      .shaped Sized.DUMMY_TYPED_DICT_NAME
        ([((PyVal.str "x"), (PyVal.int 1))].map fun p =>
          (Sized.strOf p.1, Sized.get_type p.2 2, true)) :=
  ⟨(sized_get_type_dict [(.str "x", .int 1), (.str "y", .int 2)] 1 (by decide)).1
      (Or.inr (Or.inr (by decide))),
    (sized_get_type_dict [(.str "x", .int 1)] 2 (by decide)).2 (by decide)⟩

end MonkeyType

